import Mathlib

/-!
Verification of the tiered backup-retention engine of `backend/backup.py`
(relic repository): timestamp codec (`generate_backup_filename`,
`parse_backup_timestamp`), retention classifier (`classify_backups`),
listing (`list_all_backups`) and the cleanup executor
(`cleanup_old_backups`), as a shallow embedding in Lean.
-/

deriving instance DecidableEq for Except

namespace Relic

/-! ### Datetime model

Python `datetime` values (second precision, as produced and consumed by the
backup code) are embedded as records of calendar fields.  Arithmetic
(`timedelta.days`, `date.isocalendar`) is embedded through the standard
civil-calendar day-numbering.  -/

structure DT where
  year : Int
  month : Nat
  day : Nat
  hour : Nat
  minute : Nat
  second : Nat
deriving DecidableEq, Repr

/-- Number of days in a month of the proleptic Gregorian calendar. -/
def daysInMonth (y : Int) (m : Nat) : Nat :=
  if m = 2 then
    if y % 4 = 0 ∧ (y % 100 ≠ 0 ∨ y % 400 = 0) then 29 else 28
  else if m = 4 ∨ m = 6 ∨ m = 9 ∨ m = 11 then 30
  else 31

/-- Validity of a `DT`, matching the ranges Python `datetime` enforces. -/
def DT.Valid (t : DT) : Prop :=
  1 ≤ t.year ∧ t.year ≤ 9999 ∧
  1 ≤ t.month ∧ t.month ≤ 12 ∧
  1 ≤ t.day ∧ t.day ≤ daysInMonth t.year t.month ∧
  t.hour ≤ 23 ∧ t.minute ≤ 59 ∧ t.second ≤ 59

instance (t : DT) : Decidable t.Valid := by unfold DT.Valid; infer_instance

/-- Days since 1970-01-01 of the civil date `(y, m, d)` (proleptic
Gregorian); the standard days-from-civil algorithm. -/
def daysFromCivil (y : Int) (m d : Nat) : Int :=
  let y' : Int := if m ≤ 2 then y - 1 else y
  let era : Int := Int.fdiv y' 400
  let yoe : Int := y' - era * 400
  let mp : Int := if m ≥ 3 then (m : Int) - 3 else (m : Int) + 9
  let doy : Int := Int.fdiv (153 * mp + 2) 5 + (d : Int) - 1
  let doe : Int := yoe * 365 + Int.fdiv yoe 4 - Int.fdiv yoe 100 + doy
  era * 146097 + doe - 719468

/-- Day number (days since epoch) of a `DT`'s date part. -/
def DT.dayNumber (t : DT) : Int := daysFromCivil t.year t.month t.day

/-- Seconds since epoch of a `DT`. -/
def DT.secs (t : DT) : Int :=
  t.dayNumber * 86400 + (t.hour : Int) * 3600 + (t.minute : Int) * 60 + t.second

/-- `(a - b).days` of Python datetime subtraction: `timedelta` stores a
normalised `days` component, which is the floor of the exact difference in
days. -/
def tdDays (a b : DT) : Int := Int.fdiv (a.secs - b.secs) 86400

/-- ISO weekday, Monday = 1 .. Sunday = 7. -/
def isoWeekday (y : Int) (m d : Nat) : Int :=
  (daysFromCivil y m d + 3).emod 7 + 1

/-- `p(y)` auxiliary of the ISO week-count rule. -/
def isoP (y : Int) : Int :=
  (y + Int.fdiv y 4 - Int.fdiv y 100 + Int.fdiv y 400).emod 7

/-- Number of ISO weeks (52 or 53) in year `y`. -/
def isoWeeksInYear (y : Int) : Int :=
  if isoP y = 4 ∨ isoP (y - 1) = 3 then 53 else 52

/-- ISO calendar `(year, week)` pair of a civil date, as returned by
Python `date.isocalendar()`. -/
def isoPair (y : Int) (m d : Nat) : Int × Int :=
  let ord : Int := daysFromCivil y m d - daysFromCivil y 1 1 + 1
  let w : Int := Int.fdiv (ord - isoWeekday y m d + 10) 7
  if w < 1 then (y - 1, isoWeeksInYear (y - 1))
  else if w > isoWeeksInYear y then (y + 1, 1)
  else (y, w)

/-- `timestamp.isocalendar()[1]`: the ISO week number. -/
def DT.isoWeekNum (t : DT) : Int := (isoPair t.year t.month t.day).2

/-- The full ISO `(year, week)` pair of a timestamp's date. -/
def DT.isoYearWeek (t : DT) : Int × Int := isoPair t.year t.month t.day

/-! ### Snapshot model and retention classifier -/

/-- Retention tier labels assigned by `classify_backups`. -/
inductive Tier where
  | monthly
  | weekly
  | daily
  | expired
deriving DecidableEq, Repr

/-- A backup record as built by `list_all_backups`: the dict
`{key, timestamp, size, last_modified}`.  `retention_type` mirrors the
mutable `'retention_type'` entry that `classify_backups` writes into the
dict in place; it is absent (`none`) on freshly listed records. -/
structure Backup where
  key : List Char
  timestamp : DT
  size : Nat
  lastModified : Nat
  retention_type : Option Tier
deriving DecidableEq, Repr

/-- `settings.BACKUP_RETENTION_DAYS` default. -/
def BACKUP_RETENTION_DAYS : Int := 7

/-- `settings.BACKUP_RETENTION_WEEKS` default. -/
def BACKUP_RETENTION_WEEKS : Int := 30

/-- `(now - backup['timestamp']).days` of the classifier loop. -/
def ageDays (now : DT) (b : Backup) : Int := tdDays now b.timestamp

/-- The monthly bucket key `(year, month)` used by `classify_backups`. -/
def monthKey (b : Backup) : Int × Nat := (b.timestamp.year, b.timestamp.month)

/-- The weekly bucket key used by `classify_backups`: the *calendar* year
paired with the ISO week number (`backup['timestamp'].year`,
`backup['timestamp'].isocalendar()[1]`). -/
def weekKey (b : Backup) : Int × Int := (b.timestamp.year, b.timestamp.isoWeekNum)

/-- Loop state of `classify_backups`: the two seen-sets and the two output
lists being accumulated. -/
structure ClassifyState where
  kept_months : List (Int × Nat)
  kept_weeks : List (Int × Int)
  to_keep : List Backup
  to_delete : List Backup
deriving Repr

def initState : ClassifyState := ⟨[], [], [], []⟩

/-- Write `backup['retention_type'] = t` (in-place dict mutation). -/
def setTier (b : Backup) (t : Tier) : Backup := { b with retention_type := some t }

/-- One iteration of the classifier loop over a backup, in the priority
order monthly > weekly > daily > expired. -/
def classifyStep (now : DT) (st : ClassifyState) (b : Backup) : ClassifyState :=
  if monthKey b ∉ st.kept_months then
    { st with to_keep := st.to_keep ++ [setTier b .monthly],
              kept_months := st.kept_months ++ [monthKey b] }
  else if ageDays now b ≤ BACKUP_RETENTION_WEEKS ∧ weekKey b ∉ st.kept_weeks then
    { st with to_keep := st.to_keep ++ [setTier b .weekly],
              kept_weeks := st.kept_weeks ++ [weekKey b] }
  else if ageDays now b ≤ BACKUP_RETENTION_DAYS then
    { st with to_keep := st.to_keep ++ [setTier b .daily] }
  else
    { st with to_delete := st.to_delete ++ [setTier b .expired] }

/-- `sorted(backups, key=lambda x: x['timestamp'], reverse=True)`:
stable descending sort by timestamp (Python datetime order is
chronological order, i.e. the order of `DT.secs` on valid datetimes; a
stable insertion sort realises the same stable descending ordering). -/
def sortDesc (backups : List Backup) : List Backup :=
  backups.insertionSort (fun a b => b.timestamp.secs ≤ a.timestamp.secs)

/-- `classify_backups`, with the ambient `datetime.utcnow()` made an
explicit `now` parameter.  Returns the `{'to_keep': ..., 'to_delete': ...}`
pair. -/
def classify_backups (backups : List Backup) (now : DT) : List Backup × List Backup :=
  let final := (sortDesc backups).foldl (classifyStep now) initState
  (final.to_keep, final.to_delete)

/-- The loop state at the end of the classifier walk. -/
def classifyFinal (backups : List Backup) (now : DT) : ClassifyState :=
  (sortDesc backups).foldl (classifyStep now) initState

/-! ### Timestamp codec

`generate_backup_filename` and `parse_backup_timestamp`, embedded over
`List Char`.  The regex searches of the source are embedded as explicit
leftmost pattern searches. -/

/-- The literal `"backup-"` of both patterns. -/
def litBackup : List Char := ['b', 'a', 'c', 'k', 'u', 'p', '-']

/-- The literal `".sql.gz"` suffix of both patterns. -/
def litSqlGz : List Char := ['.', 's', 'q', 'l', '.', 'g', 'z']

/-- The literal `"startup"` marker. -/
def litStartup : List Char := ['s', 't', 'a', 'r', 't', 'u', 'p']

/-- The literal `"shutdown"` marker. -/
def litShutdown : List Char := ['s', 'h', 'u', 't', 'd', 'o', 'w', 'n']

/-- The literal `"db/"` folder prefix. -/
def litDb : List Char := ['d', 'b', '/']

/-- The decimal digit character for `n < 10`. -/
def digitChar : Nat → Char
  | 0 => '0' | 1 => '1' | 2 => '2' | 3 => '3' | 4 => '4'
  | 5 => '5' | 6 => '6' | 7 => '7' | 8 => '8' | _ => '9'

/-- Two-digit zero-padded decimal (strftime `%m`, `%d`, `%H`, `%M`, `%S`). -/
def pad2 (n : Nat) : List Char := [digitChar (n / 10 % 10), digitChar (n % 10)]

/-- Four-digit zero-padded decimal (strftime `%Y` for four-digit years). -/
def pad4 (n : Nat) : List Char :=
  [digitChar (n / 1000 % 10), digitChar (n / 100 % 10),
   digitChar (n / 10 % 10), digitChar (n % 10)]

/-- `now.strftime('%Y-%m-%d')`. -/
def dateChars (t : DT) : List Char :=
  pad4 t.year.toNat ++ ['-'] ++ pad2 t.month ++ ['-'] ++ pad2 t.day

/-- `now.strftime('%Y-%m-%d-%H-%M-%S')`. -/
def fullChars (t : DT) : List Char :=
  dateChars t ++ ['-'] ++ pad2 t.hour ++ ['-'] ++ pad2 t.minute ++ ['-'] ++ pad2 t.second

/-- The `backup_type` argument of `generate_backup_filename`. -/
inductive BackupType where
  | scheduled
  | startup
  | shutdown
  | manual
deriving DecidableEq, Repr

/-- `generate_backup_filename`, with the ambient `datetime.utcnow()` made
an explicit parameter. -/
def generate_backup_filename (backup_type : BackupType) (now : DT) : List Char :=
  match backup_type with
  | .startup => litDb ++ litBackup ++ dateChars now ++ ['-'] ++ litStartup ++ litSqlGz
  | .shutdown => litDb ++ litBackup ++ dateChars now ++ ['-'] ++ litShutdown ++ litSqlGz
  | _ => litDb ++ litBackup ++ fullChars now ++ litSqlGz

/-- Read exactly `n` decimal digits, extending the accumulated value. -/
def readDigits : Nat → Nat → List Char → Option (Nat × List Char)
  | 0, acc, cs => some (acc, cs)
  | _ + 1, _, [] => none
  | n + 1, acc, c :: cs =>
    if c.isDigit then readDigits n (acc * 10 + (c.toNat - 48)) cs else none

/-- `\d{n}`: exactly `n` digits, returning their decimal value. -/
def takeDigits (n : Nat) (cs : List Char) : Option (Nat × List Char) :=
  readDigits n 0 cs

/-- Match a fixed literal at the head of the input. -/
def expectLit : List Char → List Char → Option (List Char)
  | [], cs => some cs
  | _ :: _, [] => none
  | l :: ls, c :: cs => if c = l then expectLit ls cs else none

/-- Match `backup-(\d{4})-(\d{2})-(\d{2})-(\d{2})-(\d{2})-(\d{2})\.sql\.gz`
anchored at the head of the input. -/
def matchFullHere (cs : List Char) : Option (Nat × Nat × Nat × Nat × Nat × Nat) :=
  (expectLit litBackup cs).bind fun cs =>
  (takeDigits 4 cs).bind fun (y, cs) =>
  (expectLit ['-'] cs).bind fun cs =>
  (takeDigits 2 cs).bind fun (mo, cs) =>
  (expectLit ['-'] cs).bind fun cs =>
  (takeDigits 2 cs).bind fun (d, cs) =>
  (expectLit ['-'] cs).bind fun cs =>
  (takeDigits 2 cs).bind fun (h, cs) =>
  (expectLit ['-'] cs).bind fun cs =>
  (takeDigits 2 cs).bind fun (mi, cs) =>
  (expectLit ['-'] cs).bind fun cs =>
  (takeDigits 2 cs).bind fun (s, cs) =>
  (expectLit litSqlGz cs).map fun _ => (y, mo, d, h, mi, s)

/-- Match `backup-(\d{4})-(\d{2})-(\d{2})-(startup|shutdown)\.sql\.gz`
anchored at the head of the input. -/
def matchMarkerHere (cs : List Char) : Option (Nat × Nat × Nat) :=
  (expectLit litBackup cs).bind fun cs =>
  (takeDigits 4 cs).bind fun (y, cs) =>
  (expectLit ['-'] cs).bind fun cs =>
  (takeDigits 2 cs).bind fun (mo, cs) =>
  (expectLit ['-'] cs).bind fun cs =>
  (takeDigits 2 cs).bind fun (d, cs) =>
  (expectLit ['-'] cs).bind fun cs =>
  (match expectLit litStartup cs with
   | some cs => some cs
   | none => expectLit litShutdown cs).bind fun cs =>
  (expectLit litSqlGz cs).map fun _ => (y, mo, d)

/-- `re.search` with the full-timestamp pattern: leftmost match. -/
def searchFull : List Char → Option (Nat × Nat × Nat × Nat × Nat × Nat)
  | [] => none
  | c :: cs =>
    match matchFullHere (c :: cs) with
    | some r => some r
    | none => searchFull cs

/-- `re.search` with the marker pattern: leftmost match. -/
def searchMarker : List Char → Option (Nat × Nat × Nat)
  | [] => none
  | c :: cs =>
    match matchMarkerHere (c :: cs) with
    | some r => some r
    | none => searchMarker cs

/-- How `parse_backup_timestamp` can fail: the explicit
`ValueError("Invalid backup filename format: ...")` raised when neither
pattern matches, versus the `ValueError` the `datetime` constructor raises
on out-of-range field values. -/
inductive ParseErr where
  | invalidFormat
  | invalidValue
deriving DecidableEq, Repr

/-- `datetime(year, month, day, hour, minute, second)`: validates ranges. -/
def mkDatetime (y mo d h mi s : Nat) : Except ParseErr DT :=
  let t : DT := ⟨(y : Int), mo, d, h, mi, s⟩
  if t.Valid then .ok t else .error .invalidValue

/-- `parse_backup_timestamp`: try the full pattern first, then the marker
pattern (substituting 12:00:00), else fail with the invalid-format error. -/
def parse_backup_timestamp (s3_key : List Char) : Except ParseErr DT :=
  match searchFull s3_key with
  | some (y, mo, d, h, mi, s) => mkDatetime y mo d h mi s
  | none =>
    match searchMarker s3_key with
    | some (y, mo, d) => mkDatetime y mo d 12 0 0
    | none => .error .invalidFormat

/-! ### Listing and the cleanup executor -/

/-- An object returned by the store listing (`obj.object_name`,
`obj.size`, `obj.last_modified`). -/
structure StoreObj where
  object_name : List Char
  size : Nat
  last_modified : Nat
deriving DecidableEq, Repr

/-- Build one backup record from a listed object, skipping objects whose
names match neither backup pattern (the `except ValueError` branch of the
listing loop). -/
def toBackup (o : StoreObj) : Option Backup :=
  match parse_backup_timestamp o.object_name with
  | .ok t => some ⟨o.object_name, t, o.size, o.last_modified, none⟩
  | .error _ => none

/-- `list_all_backups`, parameterised by the outcome of the store listing
call.  A listing failure is caught and yields `[]`. -/
def list_all_backups (listing : Except Unit (List StoreObj)) : List Backup :=
  match listing with
  | .error _ => []
  | .ok objs => objs.filterMap toBackup

/-- The aggregate result of one retention pass: which delete calls were
issued, which succeeded, and the logged aggregate counters. -/
structure CleanupReport where
  deletedKeys : List (List Char)
  attemptedKeys : List (List Char)
  deleted_count : Nat
  deleted_bytes : Nat
  retained : Nat
deriving DecidableEq, Repr

/-- The deletion loop of `cleanup_old_backups`: each delete is attempted
in order; a failing delete (`delOk` false) is logged and skipped, the loop
continues; counters track successful deletions only. -/
def deleteLoop (delOk : List Char → Bool) (toDel : List Backup) :
    Nat × Nat × List (List Char) × List (List Char) :=
  toDel.foldl
    (fun acc b =>
      let (c, byt, dk, ak) := acc
      if delOk b.key then (c + 1, byt + b.size, dk ++ [b.key], ak ++ [b.key])
      else (c, byt, dk, ak ++ [b.key]))
    (0, 0, [], [])

/-- `cleanup_old_backups`, parameterised by the listing outcome, a per-key
delete-success oracle, and the ambient `datetime.utcnow()`. -/
def cleanup_old_backups (listing : Except Unit (List StoreObj))
    (delOk : List Char → Bool) (now : DT) : CleanupReport :=
  let backups := list_all_backups listing
  if backups.isEmpty then ⟨[], [], 0, 0, 0⟩
  else
    let r := classify_backups backups now
    if r.2.isEmpty then ⟨[], [], 0, 0, r.1.length⟩
    else
      let (c, byt, dk, ak) := deleteLoop delOk r.2
      ⟨dk, ak, c, byt, r.1.length⟩

/-- Erase the mutable tier annotation: the snapshot as listed. -/
def stripTier (b : Backup) : Backup := { b with retention_type := none }

/-- The contents of the caller's snapshot records after `classify_backups`
returns.  The source mutates each input dict in place
(`backup['retention_type'] = ...`), and the returned lists alias those
dicts, so the post-call records are exactly the records of
`to_keep ++ to_delete`. -/
def classifyPost (backups : List Backup) (now : DT) : List Backup :=
  (classify_backups backups now).1 ++ (classify_backups backups now).2

/-! ### Auxiliary predicates used by the statements -/

/-- `tb` is tagged `monthly` for the month bucket `k`. -/
def isMonthlyFor (k : Int × Nat) (tb : Backup) : Bool :=
  decide (tb.retention_type = some Tier.monthly ∧ monthKey tb = k)

/-- `tb` is tagged `weekly` for the week bucket `k`. -/
def isWeeklyFor (k : Int × Int) (tb : Backup) : Bool :=
  decide (tb.retention_type = some Tier.weekly ∧ weekKey tb = k)

/-- Seconds since midnight of a timestamp's time-of-day part. -/
def DT.timeOfDay (t : DT) : Int :=
  (t.hour : Int) * 3600 + (t.minute : Int) * 60 + t.second

/-- `ds` is a run of exactly `n` decimal digit characters. -/
def DigitStr (ds : List Char) (n : Nat) : Prop :=
  ds.length = n ∧ ∀ c ∈ ds, c.isDigit

/-- The key contains the exact pattern
`backup-\d{4}-\d{2}-\d{2}-\d{2}-\d{2}-\d{2}\.sql\.gz` as a substring. -/
def ContainsFullPattern (k : List Char) : Prop :=
  ∃ p y mo d h mi s rest,
    DigitStr y 4 ∧ DigitStr mo 2 ∧ DigitStr d 2 ∧
    DigitStr h 2 ∧ DigitStr mi 2 ∧ DigitStr s 2 ∧
    k = p ++ litBackup ++ y ++ ['-'] ++ mo ++ ['-'] ++ d ++ ['-'] ++ h ++ ['-'] ++
        mi ++ ['-'] ++ s ++ litSqlGz ++ rest

/-- The key contains the marker pattern
`backup-\d{4}-\d{2}-\d{2}-(startup|shutdown)\.sql\.gz` as a substring. -/
def ContainsMarkerPattern (k : List Char) : Prop :=
  ∃ p y mo d w rest,
    DigitStr y 4 ∧ DigitStr mo 2 ∧ DigitStr d 2 ∧
    (w = litStartup ∨ w = litShutdown) ∧
    k = p ++ litBackup ++ y ++ ['-'] ++ mo ++ ['-'] ++ d ++ ['-'] ++ w ++ litSqlGz ++ rest

/-- The loop invariant of the classifier walk: ties the seen-sets to the
tags present in the output lists, records that every processed snapshot's
month bucket is seen, that each `monthly`-tagged snapshot is newest among
processed snapshots of its month, and the tier discipline of the two
output lists. -/
structure Inv (now : DT) (st : ClassifyState) : Prop where
  mCount : ∀ k, st.to_keep.countP (isMonthlyFor k) = if k ∈ st.kept_months then 1 else 0
  wCount : ∀ k, st.to_keep.countP (isWeeklyFor k) = if k ∈ st.kept_weeks then 1 else 0
  monthSeen : ∀ b, b ∈ st.to_keep ++ st.to_delete → monthKey b ∈ st.kept_months
  monthlyMax : ∀ tb, tb ∈ st.to_keep → tb.retention_type = some Tier.monthly →
    ∀ b, b ∈ st.to_keep ++ st.to_delete → monthKey b = monthKey tb →
      b.timestamp.secs ≤ tb.timestamp.secs
  delExpired : ∀ tb, tb ∈ st.to_delete →
    tb.retention_type = some Tier.expired ∧ BACKUP_RETENTION_DAYS < ageDays now tb
  keepTier : ∀ tb, tb ∈ st.to_keep →
    tb.retention_type = some Tier.monthly ∨ tb.retention_type = some Tier.weekly ∨
      tb.retention_type = some Tier.daily

/-! ## Lemmas: field projections -/

theorem monthKey_setTier (b : Backup) (t : Tier) : monthKey (setTier b t) = monthKey b := rfl

theorem weekKey_setTier (b : Backup) (t : Tier) : weekKey (setTier b t) = weekKey b := rfl

theorem timestamp_setTier (b : Backup) (t : Tier) : (setTier b t).timestamp = b.timestamp := rfl

theorem ageDays_setTier (now : DT) (b : Backup) (t : Tier) :
    ageDays now (setTier b t) = ageDays now b := rfl

theorem stripTier_setTier (b : Backup) (t : Tier) : stripTier (setTier b t) = stripTier b := rfl

theorem retention_setTier (b : Backup) (t : Tier) : (setTier b t).retention_type = some t := rfl

theorem monthKey_stripTier (b : Backup) : monthKey (stripTier b) = monthKey b := rfl

theorem timestamp_stripTier (b : Backup) : (stripTier b).timestamp = b.timestamp := rfl

theorem key_stripTier (b : Backup) : (stripTier b).key = b.key := rfl

theorem ageDays_stripTier (now : DT) (b : Backup) : ageDays now (stripTier b) = ageDays now b := rfl

/-! ## Lemmas: the classifier loop invariant -/

theorem inv_init (now : DT) : Inv now initState := by
  refine ⟨?_, ?_, ?_, ?_, ?_, ?_⟩ <;> simp [initState]

theorem inv_step (now : DT) (st : ClassifyState) (b : Backup)
    (hb : ∀ p, p ∈ st.to_keep ++ st.to_delete → b.timestamp.secs ≤ p.timestamp.secs)
    (h : Inv now st) : Inv now (classifyStep now st b) := by
  unfold classifyStep
  split
  · rename_i hm
    refine ⟨?_, ?_, ?_, ?_, ?_, ?_⟩
    · intro k
      simp only [List.countP_append, List.countP_cons, List.countP_nil, h.mCount k,
        List.mem_append, List.mem_singleton]
      by_cases hk : k = monthKey b
      · subst hk
        simp [isMonthlyFor, retention_setTier, monthKey_setTier, hm]
      · simp [isMonthlyFor, retention_setTier, monthKey_setTier, hk, Ne.symm hk]
    · intro k
      simp only [List.countP_append, List.countP_cons, List.countP_nil, h.wCount k]
      simp [isWeeklyFor, retention_setTier]
    · intro p hp
      simp only [List.mem_append, List.mem_singleton] at hp ⊢
      rcases hp with (hp | hp) | hp
      · exact .inl (h.monthSeen p (by simp [hp]))
      · subst hp; simp [monthKey_setTier]
      · exact .inl (h.monthSeen p (by simp [hp]))
    · intro tb htb hmon p hp hpm
      simp only [List.mem_append, List.mem_singleton] at htb hp
      rcases htb with htb | htb
      · rcases hp with (hp | hp) | hp
        · exact h.monthlyMax tb htb hmon p (by simp [hp]) hpm
        · exfalso
          apply hm
          have := h.monthSeen tb (by simp [htb])
          rw [hp, monthKey_setTier] at hpm
          rwa [hpm]
        · exact h.monthlyMax tb htb hmon p (by simp [hp]) hpm
      · subst htb
        rcases hp with (hp | hp) | hp
        · exfalso
          apply hm
          have := h.monthSeen p (by simp [hp])
          rw [monthKey_setTier] at hpm
          rwa [hpm] at this
        · subst hp; exact le_refl _
        · exfalso
          apply hm
          have := h.monthSeen p (by simp [hp])
          rw [monthKey_setTier] at hpm
          rwa [hpm] at this
    · exact h.delExpired
    · intro tb htb
      simp only [List.mem_append, List.mem_singleton] at htb
      rcases htb with htb | htb
      · exact h.keepTier tb htb
      · subst htb; exact .inl (retention_setTier b _)
  · rename_i hm
    rw [not_not] at hm
    split
    · rename_i hw
      refine ⟨?_, ?_, ?_, ?_, ?_, ?_⟩
      · intro k
        simp only [List.countP_append, List.countP_cons, List.countP_nil, h.mCount k]
        simp [isMonthlyFor, retention_setTier]
      · intro k
        simp only [List.countP_append, List.countP_cons, List.countP_nil, h.wCount k,
          List.mem_append, List.mem_singleton]
        by_cases hk : k = weekKey b
        · subst hk
          simp [isWeeklyFor, retention_setTier, weekKey_setTier, hw.2]
        · simp [isWeeklyFor, retention_setTier, weekKey_setTier, hk, Ne.symm hk]
      · intro p hp
        simp only [List.mem_append, List.mem_singleton] at hp ⊢
        rcases hp with (hp | hp) | hp
        · exact h.monthSeen p (by simp [hp])
        · subst hp; simpa [monthKey_setTier] using hm
        · exact h.monthSeen p (by simp [hp])
      · intro tb htb hmon p hp hpm
        simp only [List.mem_append, List.mem_singleton] at htb hp
        rcases htb with htb | htb
        · rcases hp with (hp | hp) | hp
          · exact h.monthlyMax tb htb hmon p (by simp [hp]) hpm
          · subst hp
            simpa [timestamp_setTier] using hb tb (by simp [htb])
          · exact h.monthlyMax tb htb hmon p (by simp [hp]) hpm
        · subst htb
          exact absurd hmon (by simp [retention_setTier])
      · exact h.delExpired
      · intro tb htb
        simp only [List.mem_append, List.mem_singleton] at htb
        rcases htb with htb | htb
        · exact h.keepTier tb htb
        · subst htb; exact .inr (.inl (retention_setTier b _))
    · rename_i hw
      split
      · rename_i hd
        refine ⟨?_, ?_, ?_, ?_, ?_, ?_⟩
        · intro k
          simp only [List.countP_append, List.countP_cons, List.countP_nil, h.mCount k]
          simp [isMonthlyFor, retention_setTier]
        · intro k
          simp only [List.countP_append, List.countP_cons, List.countP_nil, h.wCount k]
          simp [isWeeklyFor, retention_setTier]
        · intro p hp
          simp only [List.mem_append, List.mem_singleton] at hp ⊢
          rcases hp with (hp | hp) | hp
          · exact h.monthSeen p (by simp [hp])
          · subst hp; simpa [monthKey_setTier] using hm
          · exact h.monthSeen p (by simp [hp])
        · intro tb htb hmon p hp hpm
          simp only [List.mem_append, List.mem_singleton] at htb hp
          rcases htb with htb | htb
          · rcases hp with (hp | hp) | hp
            · exact h.monthlyMax tb htb hmon p (by simp [hp]) hpm
            · subst hp
              simpa [timestamp_setTier] using hb tb (by simp [htb])
            · exact h.monthlyMax tb htb hmon p (by simp [hp]) hpm
          · subst htb
            exact absurd hmon (by simp [retention_setTier])
        · exact h.delExpired
        · intro tb htb
          simp only [List.mem_append, List.mem_singleton] at htb
          rcases htb with htb | htb
          · exact h.keepTier tb htb
          · subst htb; exact .inr (.inr (retention_setTier b _))
      · rename_i hd
        refine ⟨h.mCount, h.wCount, ?_, ?_, ?_, h.keepTier⟩
        · intro p hp
          simp only [List.mem_append, List.mem_singleton] at hp ⊢
          rcases hp with hp | hp | hp
          · exact h.monthSeen p (by simp [hp])
          · exact h.monthSeen p (by simp [hp])
          · subst hp; simpa [monthKey_setTier] using hm
        · intro tb htb hmon p hp hpm
          simp only [List.mem_append, List.mem_singleton] at hp
          rcases hp with hp | hp | hp
          · exact h.monthlyMax tb htb hmon p (by simp [hp]) hpm
          · exact h.monthlyMax tb htb hmon p (by simp [hp]) hpm
          · subst hp
            simpa [timestamp_setTier] using hb tb (by simp [htb])
        · intro tb htb
          simp only [List.mem_append, List.mem_singleton] at htb
          rcases htb with htb | htb
          · exact h.delExpired tb htb
          · subst htb
            refine ⟨retention_setTier b _, ?_⟩
            rw [ageDays_setTier]
            omega

theorem classifyStep_mem (now : DT) (st : ClassifyState) (b p : Backup)
    (hp : p ∈ (classifyStep now st b).to_keep ++ (classifyStep now st b).to_delete) :
    p ∈ st.to_keep ++ st.to_delete ∨ ∃ t, p = setTier b t := by
  unfold classifyStep at hp
  split at hp
  · simp only [List.mem_append, List.mem_singleton] at hp
    rcases hp with (hp | hp) | hp
    exacts [.inl (by simp [hp]), .inr ⟨_, hp⟩, .inl (by simp [hp])]
  · split at hp
    · simp only [List.mem_append, List.mem_singleton] at hp
      rcases hp with (hp | hp) | hp
      exacts [.inl (by simp [hp]), .inr ⟨_, hp⟩, .inl (by simp [hp])]
    · split at hp
      · simp only [List.mem_append, List.mem_singleton] at hp
        rcases hp with (hp | hp) | hp
        exacts [.inl (by simp [hp]), .inr ⟨_, hp⟩, .inl (by simp [hp])]
      · simp only [List.mem_append, List.mem_singleton] at hp
        rcases hp with hp | hp | hp
        exacts [.inl (by simp [hp]), .inl (by simp [hp]), .inr ⟨_, hp⟩]

theorem inv_foldl (now : DT) : ∀ (l : List Backup) (st : ClassifyState),
    l.Pairwise (fun a b => b.timestamp.secs ≤ a.timestamp.secs) →
    (∀ p, p ∈ st.to_keep ++ st.to_delete → ∀ x ∈ l, x.timestamp.secs ≤ p.timestamp.secs) →
    Inv now st → Inv now (l.foldl (classifyStep now) st)
  | [], _, _, _, h => h
  | b :: l, st, hpw, hsep, h => by
    rw [List.foldl_cons]
    have hhead := (List.pairwise_cons.mp hpw).1
    apply inv_foldl now l (classifyStep now st b) (List.pairwise_cons.mp hpw).2
    · intro p hp x hx
      rcases classifyStep_mem now st b p hp with hold | ⟨t, rfl⟩
      · exact hsep p hold x (by simp [hx])
      · rw [timestamp_setTier]
        exact hhead x hx
    · exact inv_step now st b (fun p hp => hsep p hp b (by simp)) h

theorem classifyStep_strip_perm (now : DT) (st : ClassifyState) (b : Backup) :
    List.Perm (((classifyStep now st b).to_keep ++ (classifyStep now st b).to_delete).map stripTier)
      ((st.to_keep ++ st.to_delete).map stripTier ++ [stripTier b]) := by
  unfold classifyStep
  split
  · simp only [List.map_append, List.map_cons, List.map_nil, stripTier_setTier]
    rw [List.append_assoc, List.append_assoc]
    exact List.Perm.append_left _ List.perm_append_comm
  · split
    · simp only [List.map_append, List.map_cons, List.map_nil, stripTier_setTier]
      rw [List.append_assoc, List.append_assoc]
      exact List.Perm.append_left _ List.perm_append_comm
    · split
      · simp only [List.map_append, List.map_cons, List.map_nil, stripTier_setTier]
        rw [List.append_assoc, List.append_assoc]
        exact List.Perm.append_left _ List.perm_append_comm
      · simp only [List.map_append, List.map_cons, List.map_nil, stripTier_setTier]
        rw [List.append_assoc]

theorem strip_foldl (now : DT) : ∀ (l : List Backup) (st : ClassifyState),
    List.Perm (((l.foldl (classifyStep now) st).to_keep ++
        (l.foldl (classifyStep now) st).to_delete).map stripTier)
      ((st.to_keep ++ st.to_delete).map stripTier ++ l.map stripTier)
  | [], st => by simp
  | b :: l, st => by
    rw [List.foldl_cons]
    refine (strip_foldl now l (classifyStep now st b)).trans ?_
    simp only [List.map_cons]
    refine (List.Perm.append_right _ (classifyStep_strip_perm now st b)).trans ?_
    rw [List.append_assoc, List.singleton_append]

theorem sortDesc_pairwise (bs : List Backup) :
    (sortDesc bs).Pairwise (fun a b => b.timestamp.secs ≤ a.timestamp.secs) := by
  haveI : IsTotal Backup (fun a b => b.timestamp.secs ≤ a.timestamp.secs) :=
    ⟨fun a b => Int.le_total _ _⟩
  haveI : IsTrans Backup (fun a b => b.timestamp.secs ≤ a.timestamp.secs) :=
    ⟨fun _ _ _ h1 h2 => le_trans h2 h1⟩
  exact List.sorted_insertionSort _ bs

theorem sortDesc_perm (bs : List Backup) : List.Perm (sortDesc bs) bs :=
  List.perm_insertionSort _ bs

theorem classify_inv (bs : List Backup) (now : DT) :
    Inv now ((sortDesc bs).foldl (classifyStep now) initState) := by
  apply inv_foldl now _ _ (sortDesc_pairwise bs)
  · intro p hp
    simp [initState] at hp
  · exact inv_init now

theorem classifyPost_strip_perm (bs : List Backup) (now : DT) :
    List.Perm ((classifyPost bs now).map stripTier) (bs.map stripTier) := by
  have h := strip_foldl now (sortDesc bs) initState
  simp only [initState, List.append_nil, List.map_nil, List.nil_append] at h
  exact h.trans ((sortDesc_perm bs).map stripTier)

theorem inv_final (bs : List Backup) (now : DT) : Inv now (classifyFinal bs now) :=
  classify_inv bs now

theorem classify_eq_final (bs : List Backup) (now : DT) :
    classify_backups bs now = ((classifyFinal bs now).to_keep, (classifyFinal bs now).to_delete) :=
  rfl

theorem mem_final_of_mem (bs : List Backup) (now : DT) (b : Backup) (hb : b ∈ bs) :
    ∃ p, p ∈ (classifyFinal bs now).to_keep ++ (classifyFinal bs now).to_delete ∧
      stripTier p = stripTier b := by
  have h1 : stripTier b ∈ (classifyPost bs now).map stripTier :=
    (classifyPost_strip_perm bs now).mem_iff.mpr (List.mem_map_of_mem _ hb)
  obtain ⟨p, hp, hps⟩ := List.mem_map.mp h1
  exact ⟨p, hp, hps⟩

theorem mem_of_mem_final (bs : List Backup) (now : DT) (p : Backup)
    (hp : p ∈ (classifyFinal bs now).to_keep ++ (classifyFinal bs now).to_delete) :
    ∃ b, b ∈ bs ∧ stripTier p = stripTier b := by
  have h1 : stripTier p ∈ bs.map stripTier :=
    (classifyPost_strip_perm bs now).mem_iff.mp (List.mem_map_of_mem _ hp)
  obtain ⟨b, hb, hbs⟩ := List.mem_map.mp h1
  exact ⟨b, hb, hbs.symm⟩

theorem stripTier_eq_month (p b : Backup) (h : stripTier p = stripTier b) :
    monthKey p = monthKey b := by
  have := congrArg monthKey h
  rwa [monthKey_stripTier, monthKey_stripTier] at this

theorem stripTier_eq_timestamp (p b : Backup) (h : stripTier p = stripTier b) :
    p.timestamp = b.timestamp := by
  have := congrArg Backup.timestamp h
  rwa [timestamp_stripTier, timestamp_stripTier] at this

/-! ## Claim theorems: the retention classifier -/

/-- C1: for every input list and every fixed `now`, `classify_backups`
tags exactly one snapshot per calendar month represented in the input as
`monthly`, and the tagged snapshot has the latest (newest) timestamp
within that month. -/
theorem claim_c1_monthly_unique (bs : List Backup) (now : DT) (y : Int) (m : Nat)
    (hrep : ∃ b ∈ bs, monthKey b = (y, m)) :
    ((classify_backups bs now).1 ++ (classify_backups bs now).2).countP (isMonthlyFor (y, m)) = 1 ∧
    ∀ tb ∈ (classify_backups bs now).1, isMonthlyFor (y, m) tb →
      ∀ b ∈ bs, monthKey b = (y, m) → b.timestamp.secs ≤ tb.timestamp.secs := by
  obtain ⟨b0, hb0, hb0m⟩ := hrep
  have hinv := inv_final bs now
  rw [classify_eq_final]
  obtain ⟨p0, hp0, hp0s⟩ := mem_final_of_mem bs now b0 hb0
  have hmem : (y, m) ∈ (classifyFinal bs now).kept_months := by
    have := hinv.monthSeen p0 hp0
    rwa [stripTier_eq_month p0 b0 hp0s, hb0m] at this
  constructor
  · rw [List.countP_append]
    have hdel : (classifyFinal bs now).to_delete.countP (isMonthlyFor (y, m)) = 0 := by
      rw [List.countP_eq_zero]
      intro tb htb
      simp [isMonthlyFor, (hinv.delExpired tb htb).1]
    rw [hdel, hinv.mCount (y, m), if_pos hmem]
  · intro tb htb hmon b hb hbm
    have hmon' : tb.retention_type = some Tier.monthly ∧ monthKey tb = (y, m) := by
      simpa [isMonthlyFor] using hmon
    obtain ⟨p, hp, hps⟩ := mem_final_of_mem bs now b hb
    have hpm : monthKey p = monthKey tb := by
      rw [stripTier_eq_month p b hps, hbm, hmon'.2]
    have := hinv.monthlyMax tb htb hmon'.1 p hp hpm
    rwa [stripTier_eq_timestamp p b hps] at this

/-- C2: the two lists returned by `classify_backups` partition the input:
as multisets of snapshot records (with the in-place tier annotation
erased) their concatenation is a permutation of the input — so every input
snapshot lands in exactly one of the two lists — and the empty input
yields two empty lists. -/
theorem claim_c2_partition (bs : List Backup) (now : DT) :
    List.Perm (((classify_backups bs now).1 ++ (classify_backups bs now).2).map stripTier)
      (bs.map stripTier) ∧ classify_backups [] now = ([], []) :=
  ⟨classifyPost_strip_perm bs now, rfl⟩

/-- C3 (amended): the weekly bucket key is the pair (calendar year,
ISO week number), and at most one snapshot per such bucket is ever tagged
`weekly`. -/
theorem claim_c3_weekly_bucket (bs : List Backup) (now : DT) (k : Int × Int) :
    ((classify_backups bs now).1 ++ (classify_backups bs now).2).countP (isWeeklyFor k) ≤ 1 := by
  have hinv := inv_final bs now
  rw [classify_eq_final, List.countP_append]
  have hdel : (classifyFinal bs now).to_delete.countP (isWeeklyFor k) = 0 := by
    rw [List.countP_eq_zero]
    intro tb htb
    simp [isWeeklyFor, (hinv.delExpired tb htb).1]
  rw [hdel, hinv.wCount k]
  split <;> omega

/-- C3 counterexample: two snapshots of the same ISO week 2025-W01
(2025-01-02 and 2024-12-30, the week spanning the calendar-year boundary)
are *both* tagged `weekly`, because the code buckets weeks by the
*calendar* year `timestamp.year` paired with the ISO week number, not by
the ISO year. -/
theorem claim_c3_counterexample :
    ((classify_backups
        [⟨[], ⟨2025, 1, 19, 0, 0, 0⟩, 10, 0, none⟩,
         ⟨[], ⟨2025, 1, 2, 0, 0, 0⟩, 11, 0, none⟩,
         ⟨[], ⟨2024, 12, 31, 0, 0, 0⟩, 12, 0, none⟩,
         ⟨[], ⟨2024, 12, 30, 0, 0, 0⟩, 13, 0, none⟩]
        ⟨2025, 1, 20, 12, 0, 0⟩).1.countP
      (fun tb => decide (tb.retention_type = some Tier.weekly ∧
        tb.timestamp.isoYearWeek = (2025, 1)))) = 2 := by decide

/-- C9: a snapshot is placed on the delete list only if it is tagged
`expired` with age beyond the daily window, and every input snapshot whose
age is within `retention_days` ends up on the keep list. -/
theorem claim_c9_daily_safety (bs : List Backup) (now : DT) :
    (∀ tb ∈ (classify_backups bs now).2,
        tb.retention_type = some Tier.expired ∧ BACKUP_RETENTION_DAYS < ageDays now tb) ∧
    ∀ b ∈ bs, ageDays now b ≤ BACKUP_RETENTION_DAYS →
      stripTier b ∈ (classify_backups bs now).1.map stripTier := by
  have hinv := inv_final bs now
  rw [classify_eq_final]
  refine ⟨fun tb htb => hinv.delExpired tb htb, ?_⟩
  intro b hb hage
  obtain ⟨p, hp, hps⟩ := mem_final_of_mem bs now b hb
  rcases List.mem_append.mp hp with hpk | hpd
  · rw [← hps]
    exact List.mem_map_of_mem _ hpk
  · exfalso
    have h2 := (hinv.delExpired p hpd).2
    have hts := stripTier_eq_timestamp p b hps
    have hage' : ageDays now p = ageDays now b := by
      unfold ageDays
      rw [hts]
    omega

/-- C10 (amended): `classify_backups` is deterministic, but it annotates
the caller's records in place: after the call every input record carries
an assigned `retention_type`, and no other field of any record is added,
removed or modified (erasing the tier annotation recovers the input as a
multiset). -/
theorem claim_c10_inplace (bs : List Backup) (now : DT) :
    List.Perm ((classifyPost bs now).map stripTier) (bs.map stripTier) ∧
    ∀ tb ∈ classifyPost bs now, tb.retention_type ≠ none := by
  refine ⟨classifyPost_strip_perm bs now, ?_⟩
  intro tb htb
  have hinv := inv_final bs now
  rcases List.mem_append.mp htb with h1 | h2
  · rcases hinv.keepTier tb h1 with h | h | h <;> simp [h]
  · simp [(hinv.delExpired tb h2).1]

/-- C10 counterexample: the input record is not unchanged after the call —
classification writes the `retention_type` field into the record in
place. -/
theorem claim_c10_counterexample :
    classifyPost [⟨[], ⟨2024, 1, 15, 2, 0, 0⟩, 5, 0, none⟩] ⟨2024, 1, 20, 0, 0, 0⟩ ≠
      [⟨[], ⟨2024, 1, 15, 2, 0, 0⟩, 5, 0, none⟩] := by decide

/-- C1 witness: the theorem applied at a concrete one-snapshot input. -/
theorem claim_c1_witness :
    (∃ b ∈ [(⟨[], ⟨2024, 1, 15, 2, 0, 0⟩, 5, 0, none⟩ : Backup)], monthKey b = (2024, 1)) ∧
    (((classify_backups [⟨[], ⟨2024, 1, 15, 2, 0, 0⟩, 5, 0, none⟩] ⟨2024, 1, 20, 0, 0, 0⟩).1 ++
        (classify_backups [⟨[], ⟨2024, 1, 15, 2, 0, 0⟩, 5, 0, none⟩]
          ⟨2024, 1, 20, 0, 0, 0⟩).2).countP (isMonthlyFor (2024, 1)) = 1 ∧
      ∀ tb ∈ (classify_backups [⟨[], ⟨2024, 1, 15, 2, 0, 0⟩, 5, 0, none⟩]
          ⟨2024, 1, 20, 0, 0, 0⟩).1, isMonthlyFor (2024, 1) tb →
        ∀ b ∈ [(⟨[], ⟨2024, 1, 15, 2, 0, 0⟩, 5, 0, none⟩ : Backup)], monthKey b = (2024, 1) →
          b.timestamp.secs ≤ tb.timestamp.secs) :=
  ⟨by decide,
    claim_c1_monthly_unique [⟨[], ⟨2024, 1, 15, 2, 0, 0⟩, 5, 0, none⟩]
      ⟨2024, 1, 20, 0, 0, 0⟩ 2024 1 (by decide)⟩

/-- C9 witness: the theorem applied at a concrete one-snapshot input whose
age is within the daily window. -/
theorem claim_c9_witness :
    (ageDays ⟨2024, 1, 20, 0, 0, 0⟩ ⟨[], ⟨2024, 1, 15, 2, 0, 0⟩, 5, 0, none⟩ ≤
        BACKUP_RETENTION_DAYS) ∧
    stripTier ⟨[], ⟨2024, 1, 15, 2, 0, 0⟩, 5, 0, none⟩ ∈
      ((classify_backups [⟨[], ⟨2024, 1, 15, 2, 0, 0⟩, 5, 0, none⟩]
          ⟨2024, 1, 20, 0, 0, 0⟩).1.map stripTier) :=
  ⟨by decide,
    (claim_c9_daily_safety [⟨[], ⟨2024, 1, 15, 2, 0, 0⟩, 5, 0, none⟩]
        ⟨2024, 1, 20, 0, 0, 0⟩).2
      ⟨[], ⟨2024, 1, 15, 2, 0, 0⟩, 5, 0, none⟩ (by decide) (by decide)⟩

/-! ## Claim theorems: age computation (C4) -/

/-- C4 counterexample: with `now` at midnight and the snapshot at 23:00,
`(now - timestamp).days` is 8 while the calendar-date difference is 9 —
the age used by the code depends on the time-of-day parts. -/
theorem claim_c4_counterexample :
    ¬ (tdDays ⟨2024, 1, 10, 0, 0, 0⟩ ⟨2024, 1, 1, 23, 0, 0⟩ =
        (⟨2024, 1, 10, 0, 0, 0⟩ : DT).dayNumber - (⟨2024, 1, 1, 23, 0, 0⟩ : DT).dayNumber) := by
  decide

/-- C4 (amended): the age used by the tier rules is
`(now - timestamp).days`, the floor of the exact difference: it equals the
calendar-date difference minus one exactly when `now`'s time-of-day is
earlier than the snapshot's time-of-day, so it does depend on the
time-of-day components. -/
theorem claim_c4_age_days (now ts : DT) (h1 : now.Valid) (h2 : ts.Valid) :
    tdDays now ts =
      (now.dayNumber - ts.dayNumber) - (if now.timeOfDay < ts.timeOfDay then 1 else 0) := by
  have e1 : now.secs = now.dayNumber * 86400 + now.timeOfDay := by
    unfold DT.secs DT.timeOfDay
    ring
  have e2 : ts.secs = ts.dayNumber * 86400 + ts.timeOfDay := by
    unfold DT.secs DT.timeOfDay
    ring
  have b1 : 0 ≤ now.timeOfDay ∧ now.timeOfDay < 86400 := by
    unfold DT.Valid at h1
    unfold DT.timeOfDay
    omega
  have b2 : 0 ≤ ts.timeOfDay ∧ ts.timeOfDay < 86400 := by
    unfold DT.Valid at h2
    unfold DT.timeOfDay
    omega
  unfold tdDays
  rw [Int.fdiv_eq_ediv _ (by norm_num), e1, e2]
  split <;> omega

/-- C4 witness: the amended theorem applied at the concrete pair of the
counterexample. -/
theorem claim_c4_witness :
    (⟨2024, 1, 10, 0, 0, 0⟩ : DT).Valid ∧ (⟨2024, 1, 1, 23, 0, 0⟩ : DT).Valid ∧
    tdDays ⟨2024, 1, 10, 0, 0, 0⟩ ⟨2024, 1, 1, 23, 0, 0⟩ =
      ((⟨2024, 1, 10, 0, 0, 0⟩ : DT).dayNumber - (⟨2024, 1, 1, 23, 0, 0⟩ : DT).dayNumber) -
        (if (⟨2024, 1, 10, 0, 0, 0⟩ : DT).timeOfDay < (⟨2024, 1, 1, 23, 0, 0⟩ : DT).timeOfDay
          then 1 else 0) :=
  ⟨by decide, by decide, claim_c4_age_days _ _ (by decide) (by decide)⟩

/-! ## Claim theorems: listing failure (C5) -/

/-- C5 counterexample: a listing failure is not propagated — it is caught
inside `list_all_backups`, which returns the empty list, and the cleanup
pass on a failed listing is *identical* to the pass on an empty store. -/
theorem claim_c5_counterexample :
    list_all_backups (Except.error ()) = [] ∧
    cleanup_old_backups (Except.error ()) (fun _ => true) ⟨2024, 1, 15, 0, 0, 0⟩ =
      cleanup_old_backups (Except.ok []) (fun _ => true) ⟨2024, 1, 15, 0, 0, 0⟩ := by
  decide

/-- C5 (amended): if listing fails entirely the error is swallowed:
`list_all_backups` returns `[]`, the pass classifies nothing and issues no
deletions, but it completes as though the store were empty instead of
propagating a failure. -/
theorem claim_c5_listing_swallowed (delOk : List Char → Bool) (now : DT) :
    cleanup_old_backups (Except.error ()) delOk now = ⟨[], [], 0, 0, 0⟩ ∧
    list_all_backups (Except.error ()) = [] :=
  ⟨rfl, rfl⟩

/-! ## Claim theorems: the deletion executor (C8) -/

theorem deleteLoop_go (delOk : List Char → Bool) :
    ∀ (l : List Backup) (c byt : Nat) (dk ak : List (List Char)),
      l.foldl
        (fun acc b =>
          let (c, byt, dk, ak) := acc
          if delOk b.key then (c + 1, byt + b.size, dk ++ [b.key], ak ++ [b.key])
          else (c, byt, dk, ak ++ [b.key]))
        (c, byt, dk, ak) =
      (c + (l.filter (fun b => delOk b.key)).length,
       byt + ((l.filter (fun b => delOk b.key)).map Backup.size).sum,
       dk ++ (l.filter (fun b => delOk b.key)).map Backup.key,
       ak ++ l.map Backup.key)
  | [], c, byt, dk, ak => by simp
  | b :: l, c, byt, dk, ak => by
    rw [List.foldl_cons]
    by_cases hd : delOk b.key
    · simp only [hd, if_true]
      rw [deleteLoop_go delOk l]
      simp [List.filter_cons, hd, List.append_assoc]
      omega
    · simp only [hd, if_false]
      rw [deleteLoop_go delOk l]
      simp [List.filter_cons, hd, List.append_assoc]

theorem deleteLoop_spec (delOk : List Char → Bool) (toDel : List Backup) :
    deleteLoop delOk toDel =
      ((toDel.filter (fun b => delOk b.key)).length,
       ((toDel.filter (fun b => delOk b.key)).map Backup.size).sum,
       (toDel.filter (fun b => delOk b.key)).map Backup.key,
       toDel.map Backup.key) := by
  unfold deleteLoop
  rw [deleteLoop_go delOk toDel 0 0 [] []]
  simp

theorem toBackup_key (o : StoreObj) (b : Backup) (h : toBackup o = some b) :
    b.key = o.object_name := by
  unfold toBackup at h
  rcases hp : parse_backup_timestamp o.object_name with t | e
  · rw [hp] at h
    cases h
  · rw [hp] at h
    cases h
    rfl

theorem backup_keys_sublist (objs : List StoreObj) :
    List.Sublist ((list_all_backups (.ok objs)).map Backup.key)
      (objs.map StoreObj.object_name) := by
  show List.Sublist ((objs.filterMap toBackup).map Backup.key) (objs.map StoreObj.object_name)
  induction objs with
  | nil => simp
  | cons o l ih =>
    rw [List.filterMap_cons]
    rcases htb : toBackup o with _ | b
    · simp only [List.map_cons]
      exact ih.cons _
    · simp only [List.map_cons]
      rw [← toBackup_key o b htb]
      exact ih.cons₂ _

theorem post_keys_perm (bs : List Backup) (now : DT) :
    List.Perm ((classifyPost bs now).map Backup.key) (bs.map Backup.key) := by
  have h := (classifyPost_strip_perm bs now).map Backup.key
  rw [List.map_map, List.map_map] at h
  have e1 : (classifyPost bs now).map (Backup.key ∘ stripTier) = (classifyPost bs now).map Backup.key :=
    List.map_congr_left (fun b _ => key_stripTier b)
  have e2 : bs.map (Backup.key ∘ stripTier) = bs.map Backup.key :=
    List.map_congr_left (fun b _ => key_stripTier b)
  rwa [e1, e2] at h

theorem cleanup_ok_spec (objs : List StoreObj) (delOk : List Char → Bool) (now : DT) :
    cleanup_old_backups (.ok objs) delOk now =
      ⟨((classify_backups (list_all_backups (.ok objs)) now).2.filter
          (fun b => delOk b.key)).map Backup.key,
       (classify_backups (list_all_backups (.ok objs)) now).2.map Backup.key,
       ((classify_backups (list_all_backups (.ok objs)) now).2.filter
          (fun b => delOk b.key)).length,
       (((classify_backups (list_all_backups (.ok objs)) now).2.filter
          (fun b => delOk b.key)).map Backup.size).sum,
       (classify_backups (list_all_backups (.ok objs)) now).1.length⟩ := by
  unfold cleanup_old_backups
  by_cases h0 : (list_all_backups (.ok objs)).isEmpty
  · have h0' : list_all_backups (.ok objs) = [] := List.isEmpty_iff.mp h0
    rw [h0']
    rfl
  · simp only [h0, if_false]
    by_cases h1 : (classify_backups (list_all_backups (.ok objs)) now).2.isEmpty
    · have h1' : (classify_backups (list_all_backups (.ok objs)) now).2 = [] :=
        List.isEmpty_iff.mp h1
      simp [h1, h1']
    · simp [h1, deleteLoop_spec]

/-- C8: the executor attempts every deletion in the delete list regardless
of per-item outcomes (a failure never aborts the rest), the aggregates
count only successful deletions (count, and bytes freed as the sum of
`size` over exactly the successfully deleted snapshots), and — under the
store guarantee of unique object keys — no snapshot of the keep list is
ever deleted. -/
theorem claim_c8_executor (objs : List StoreObj) (delOk : List Char → Bool) (now : DT)
    (hnd : (objs.map StoreObj.object_name).Nodup) :
    (cleanup_old_backups (.ok objs) delOk now).attemptedKeys =
        (classify_backups (list_all_backups (.ok objs)) now).2.map Backup.key ∧
    (cleanup_old_backups (.ok objs) delOk now).deletedKeys =
        ((classify_backups (list_all_backups (.ok objs)) now).2.filter
          (fun b => delOk b.key)).map Backup.key ∧
    (cleanup_old_backups (.ok objs) delOk now).deleted_count =
        ((classify_backups (list_all_backups (.ok objs)) now).2.filter
          (fun b => delOk b.key)).length ∧
    (cleanup_old_backups (.ok objs) delOk now).deleted_bytes =
        (((classify_backups (list_all_backups (.ok objs)) now).2.filter
          (fun b => delOk b.key)).map Backup.size).sum ∧
    ∀ b ∈ (classify_backups (list_all_backups (.ok objs)) now).1,
      b.key ∉ (cleanup_old_backups (.ok objs) delOk now).deletedKeys := by
  rw [cleanup_ok_spec]
  refine ⟨rfl, rfl, rfl, rfl, ?_⟩
  intro b hb hmem
  have hkeys : ((list_all_backups (.ok objs)).map Backup.key).Nodup :=
    hnd.sublist (backup_keys_sublist objs)
  have hpost : ((classifyPost (list_all_backups (.ok objs)) now).map Backup.key).Nodup :=
    ((post_keys_perm (list_all_backups (.ok objs)) now).nodup_iff).mpr hkeys
  have hsplit : ((classify_backups (list_all_backups (.ok objs)) now).1.map Backup.key ++
      (classify_backups (list_all_backups (.ok objs)) now).2.map Backup.key).Nodup := by
    have : classifyPost (list_all_backups (.ok objs)) now =
        (classify_backups (list_all_backups (.ok objs)) now).1 ++
          (classify_backups (list_all_backups (.ok objs)) now).2 := rfl
    rwa [this, List.map_append] at hpost
  have hdisj := (List.nodup_append.mp hsplit).2.2
  have hbk : b.key ∈ (classify_backups (list_all_backups (.ok objs)) now).1.map Backup.key :=
    List.mem_map_of_mem _ hb
  have hdel : b.key ∈ (classify_backups (list_all_backups (.ok objs)) now).2.map Backup.key := by
    obtain ⟨b', hb', hbk'⟩ := List.mem_map.mp hmem
    exact hbk' ▸ List.mem_map_of_mem _ (List.mem_of_mem_filter hb')
  exact hdisj hbk hdel

/-- C8 witness: the theorem applied to a concrete two-object store (one
snapshot kept as monthly, one expired and deleted). -/
theorem claim_c8_witness :
    (([⟨"db/backup-2024-01-15-02-00-00.sql.gz".toList, 100, 0⟩,
       ⟨"db/backup-2024-01-10-02-00-00.sql.gz".toList, 70, 0⟩] :
        List StoreObj).map StoreObj.object_name).Nodup ∧
    ((cleanup_old_backups
        (.ok [⟨"db/backup-2024-01-15-02-00-00.sql.gz".toList, 100, 0⟩,
              ⟨"db/backup-2024-01-10-02-00-00.sql.gz".toList, 70, 0⟩])
        (fun _ => true) ⟨2024, 6, 1, 0, 0, 0⟩).attemptedKeys =
        (classify_backups
          (list_all_backups
            (.ok [⟨"db/backup-2024-01-15-02-00-00.sql.gz".toList, 100, 0⟩,
                  ⟨"db/backup-2024-01-10-02-00-00.sql.gz".toList, 70, 0⟩]))
          ⟨2024, 6, 1, 0, 0, 0⟩).2.map Backup.key ∧
    (cleanup_old_backups
        (.ok [⟨"db/backup-2024-01-15-02-00-00.sql.gz".toList, 100, 0⟩,
              ⟨"db/backup-2024-01-10-02-00-00.sql.gz".toList, 70, 0⟩])
        (fun _ => true) ⟨2024, 6, 1, 0, 0, 0⟩).deletedKeys =
        ((classify_backups
          (list_all_backups
            (.ok [⟨"db/backup-2024-01-15-02-00-00.sql.gz".toList, 100, 0⟩,
                  ⟨"db/backup-2024-01-10-02-00-00.sql.gz".toList, 70, 0⟩]))
          ⟨2024, 6, 1, 0, 0, 0⟩).2.filter (fun b => (fun _ => true) b.key)).map Backup.key ∧
    (cleanup_old_backups
        (.ok [⟨"db/backup-2024-01-15-02-00-00.sql.gz".toList, 100, 0⟩,
              ⟨"db/backup-2024-01-10-02-00-00.sql.gz".toList, 70, 0⟩])
        (fun _ => true) ⟨2024, 6, 1, 0, 0, 0⟩).deleted_count =
        ((classify_backups
          (list_all_backups
            (.ok [⟨"db/backup-2024-01-15-02-00-00.sql.gz".toList, 100, 0⟩,
                  ⟨"db/backup-2024-01-10-02-00-00.sql.gz".toList, 70, 0⟩]))
          ⟨2024, 6, 1, 0, 0, 0⟩).2.filter (fun b => (fun _ => true) b.key)).length ∧
    (cleanup_old_backups
        (.ok [⟨"db/backup-2024-01-15-02-00-00.sql.gz".toList, 100, 0⟩,
              ⟨"db/backup-2024-01-10-02-00-00.sql.gz".toList, 70, 0⟩])
        (fun _ => true) ⟨2024, 6, 1, 0, 0, 0⟩).deleted_bytes =
        (((classify_backups
          (list_all_backups
            (.ok [⟨"db/backup-2024-01-15-02-00-00.sql.gz".toList, 100, 0⟩,
                  ⟨"db/backup-2024-01-10-02-00-00.sql.gz".toList, 70, 0⟩]))
          ⟨2024, 6, 1, 0, 0, 0⟩).2.filter (fun b => (fun _ => true) b.key)).map Backup.size).sum ∧
    ∀ b ∈ (classify_backups
          (list_all_backups
            (.ok [⟨"db/backup-2024-01-15-02-00-00.sql.gz".toList, 100, 0⟩,
                  ⟨"db/backup-2024-01-10-02-00-00.sql.gz".toList, 70, 0⟩]))
          ⟨2024, 6, 1, 0, 0, 0⟩).1,
      b.key ∉ (cleanup_old_backups
        (.ok [⟨"db/backup-2024-01-15-02-00-00.sql.gz".toList, 100, 0⟩,
              ⟨"db/backup-2024-01-10-02-00-00.sql.gz".toList, 70, 0⟩])
        (fun _ => true) ⟨2024, 6, 1, 0, 0, 0⟩).deletedKeys) :=
  ⟨by decide,
    claim_c8_executor
      [⟨"db/backup-2024-01-15-02-00-00.sql.gz".toList, 100, 0⟩,
       ⟨"db/backup-2024-01-10-02-00-00.sql.gz".toList, 70, 0⟩]
      (fun _ => true) ⟨2024, 6, 1, 0, 0, 0⟩ (by decide)⟩

/-- C10 witness: the amended theorem applied at a concrete input and the
concrete post-call record. -/
theorem claim_c10_witness :
    (setTier ⟨[], ⟨2024, 1, 15, 2, 0, 0⟩, 5, 0, none⟩ Tier.monthly ∈
        classifyPost [⟨[], ⟨2024, 1, 15, 2, 0, 0⟩, 5, 0, none⟩] ⟨2024, 1, 20, 0, 0, 0⟩) ∧
    (setTier ⟨[], ⟨2024, 1, 15, 2, 0, 0⟩, 5, 0, none⟩ Tier.monthly).retention_type ≠ none :=
  ⟨by decide,
    (claim_c10_inplace [⟨[], ⟨2024, 1, 15, 2, 0, 0⟩, 5, 0, none⟩] ⟨2024, 1, 20, 0, 0, 0⟩).2
      (setTier ⟨[], ⟨2024, 1, 15, 2, 0, 0⟩, 5, 0, none⟩ Tier.monthly) (by decide)⟩

/-! ## Lemmas: the timestamp codec -/

theorem expectLit_append (l cs : List Char) : expectLit l (l ++ cs) = some cs := by
  induction l with
  | nil => rfl
  | cons c l ih => simp [expectLit, ih]

theorem expectLit_sound : ∀ (l cs rest : List Char), expectLit l cs = some rest → cs = l ++ rest
  | [], cs, rest, h => by
    cases h
    rfl
  | c :: l, [], rest, h => by cases h
  | c :: l, x :: cs, rest, h => by
    unfold expectLit at h
    split at h
    · rename_i hx
      rw [hx, List.cons_append]
      exact congrArg _ (expectLit_sound l cs rest h)
    · cases h

theorem digitChar_spec (n : Nat) (h : n < 10) :
    (digitChar n).isDigit = true ∧ (digitChar n).toNat - 48 = n ∧ digitChar n ≠ 'b' ∧
      digitChar n ≠ 's' := by
  interval_cases n <;> exact ⟨by decide, by decide, by decide, by decide⟩

theorem pad2_digits (n : Nat) : ∀ c ∈ pad2 n, c.isDigit := by
  intro c hc
  simp only [pad2, List.mem_cons, List.not_mem_nil, or_false] at hc
  rcases hc with hc | hc <;> subst hc
  · exact (digitChar_spec _ (Nat.mod_lt _ (by norm_num))).1
  · exact (digitChar_spec _ (Nat.mod_lt _ (by norm_num))).1

theorem pad4_digits (n : Nat) : ∀ c ∈ pad4 n, c.isDigit := by
  intro c hc
  simp only [pad4, List.mem_cons, List.not_mem_nil, or_false] at hc
  rcases hc with hc | hc | hc | hc <;> subst hc <;>
    exact (digitChar_spec _ (Nat.mod_lt _ (by norm_num))).1

theorem readDigits_pad2 (n : Nat) (h : n < 100) (acc : Nat) (cs : List Char) :
    readDigits 2 acc (pad2 n ++ cs) = some (acc * 100 + n, cs) := by
  have h1 := digitChar_spec (n / 10 % 10) (Nat.mod_lt _ (by norm_num))
  have h2 := digitChar_spec (n % 10) (Nat.mod_lt _ (by norm_num))
  simp only [pad2, List.cons_append, List.nil_append, readDigits, h1.1, h2.1, if_true,
    h1.2.1, h2.2.1]
  congr 2
  omega

theorem readDigits_pad4 (n : Nat) (h : n < 10000) (acc : Nat) (cs : List Char) :
    readDigits 4 acc (pad4 n ++ cs) = some (acc * 10000 + n, cs) := by
  have h1 := digitChar_spec (n / 1000 % 10) (Nat.mod_lt _ (by norm_num))
  have h2 := digitChar_spec (n / 100 % 10) (Nat.mod_lt _ (by norm_num))
  have h3 := digitChar_spec (n / 10 % 10) (Nat.mod_lt _ (by norm_num))
  have h4 := digitChar_spec (n % 10) (Nat.mod_lt _ (by norm_num))
  simp only [pad4, List.cons_append, List.nil_append, readDigits, h1.1, h2.1, h3.1, h4.1,
    if_true, h1.2.1, h2.2.1, h3.2.1, h4.2.1]
  congr 2
  omega

theorem takeDigits_pad2 (n : Nat) (h : n < 100) (cs : List Char) :
    takeDigits 2 (pad2 n ++ cs) = some (n, cs) := by
  unfold takeDigits
  rw [readDigits_pad2 n h 0 cs]
  norm_num

theorem takeDigits_pad4 (n : Nat) (h : n < 10000) (cs : List Char) :
    takeDigits 4 (pad4 n ++ cs) = some (n, cs) := by
  unfold takeDigits
  rw [readDigits_pad4 n h 0 cs]
  norm_num

theorem readDigits_of_digits : ∀ (ds : List Char) (acc : Nat) (cs : List Char),
    (∀ c ∈ ds, c.isDigit) → ∃ v, readDigits ds.length acc (ds ++ cs) = some (v, cs)
  | [], acc, cs, _ => ⟨acc, rfl⟩
  | d :: ds, acc, cs, h => by
    have hd : d.isDigit := h d (by simp)
    obtain ⟨v, hv⟩ := readDigits_of_digits ds (acc * 10 + (d.toNat - 48)) cs
      (fun c hc => h c (by simp [hc]))
    exact ⟨v, by simp [readDigits, hd, hv]⟩

theorem readDigits_sound : ∀ (n : Nat) (acc : Nat) (cs : List Char) (v : Nat) (rest : List Char),
    readDigits n acc cs = some (v, rest) →
    ∃ ds, cs = ds ++ rest ∧ ds.length = n ∧ ∀ c ∈ ds, c.isDigit
  | 0, acc, cs, v, rest, h => by
    cases h
    exact ⟨[], rfl, rfl, by simp⟩
  | n + 1, acc, [], v, rest, h => by cases h
  | n + 1, acc, c :: cs, v, rest, h => by
    unfold readDigits at h
    split at h
    · rename_i hc
      obtain ⟨ds, hds, hlen, hdig⟩ := readDigits_sound n _ cs v rest h
      refine ⟨c :: ds, by simp [hds], by simp [hlen], ?_⟩
      intro x hx
      rcases List.mem_cons.mp hx with hx | hx
      · exact hx ▸ hc
      · exact hdig x hx
    · cases h

theorem takeDigits_sound (n : Nat) (cs : List Char) (v : Nat) (rest : List Char)
    (h : takeDigits n cs = some (v, rest)) :
    ∃ ds, cs = ds ++ rest ∧ ds.length = n ∧ ∀ c ∈ ds, c.isDigit :=
  readDigits_sound n 0 cs v rest h

theorem expectLit_single (c : Char) (cs : List Char) : expectLit [c] (c :: cs) = some cs := by
  simp [expectLit]

theorem expectLit_self (l : List Char) : expectLit l l = some [] := by
  simpa using expectLit_append l []

theorem matchFullHere_build (y mo d h mi s : Nat) (hy : y < 10000) (hmo : mo < 100)
    (hd : d < 100) (hh : h < 100) (hmi : mi < 100) (hs : s < 100) :
    matchFullHere (litBackup ++ (pad4 y ++ ('-' :: (pad2 mo ++ ('-' :: (pad2 d ++
        ('-' :: (pad2 h ++ ('-' :: (pad2 mi ++ ('-' :: (pad2 s ++ litSqlGz)))))))))))) =
      some (y, mo, d, h, mi, s) := by
  unfold matchFullHere
  simp only [expectLit_append, Option.some_bind, takeDigits_pad4 y hy,
    takeDigits_pad2 mo hmo, takeDigits_pad2 d hd, takeDigits_pad2 h hh,
    takeDigits_pad2 mi hmi, takeDigits_pad2 s hs, expectLit_single, expectLit_self,
    Option.map_some']

theorem matchFullHere_at_marker (y mo d : Nat) (hy : y < 10000) (hmo : mo < 100)
    (hd : d < 100) (ws : List Char) :
    matchFullHere (litBackup ++ (pad4 y ++ ('-' :: (pad2 mo ++ ('-' :: (pad2 d ++
        ('-' :: ('s' :: ws)))))))) = none := by
  unfold matchFullHere
  have hsw : takeDigits 2 ('s' :: ws) = none := by
    simp [takeDigits, readDigits]
  simp only [expectLit_append, Option.some_bind, takeDigits_pad4 y hy,
    takeDigits_pad2 mo hmo, takeDigits_pad2 d hd, expectLit_single, hsw,
    Option.none_bind]

theorem matchMarkerHere_build (y mo d : Nat) (hy : y < 10000) (hmo : mo < 100)
    (hd : d < 100) (w : List Char) (hw : w = litStartup ∨ w = litShutdown) :
    matchMarkerHere (litBackup ++ (pad4 y ++ ('-' :: (pad2 mo ++ ('-' :: (pad2 d ++
        ('-' :: (w ++ litSqlGz)))))))) = some (y, mo, d) := by
  unfold matchMarkerHere
  rcases hw with hw | hw <;> subst hw
  · simp only [expectLit_append, Option.some_bind, takeDigits_pad4 y hy,
      takeDigits_pad2 mo hmo, takeDigits_pad2 d hd, expectLit_single, expectLit_self,
      Option.map_some']
  · have hfail : expectLit litStartup (litShutdown ++ litSqlGz) = none := by
      simp [litStartup, litShutdown, expectLit]
    simp only [expectLit_append, Option.some_bind, takeDigits_pad4 y hy,
      takeDigits_pad2 mo hmo, takeDigits_pad2 d hd, expectLit_single, hfail,
      expectLit_self, Option.map_some']

theorem matchFullHere_ne_b (c : Char) (cs : List Char) (h : c ≠ 'b') :
    matchFullHere (c :: cs) = none := by
  unfold matchFullHere
  have : expectLit litBackup (c :: cs) = none := by
    simp [litBackup, expectLit, h]
  rw [this, Option.none_bind]

theorem matchFullHere_b (c : Char) (cs : List Char) (h : c ≠ 'a') :
    matchFullHere ('b' :: c :: cs) = none := by
  unfold matchFullHere
  have : expectLit litBackup ('b' :: c :: cs) = none := by
    simp [litBackup, expectLit, h]
  rw [this, Option.none_bind]

theorem matchMarkerHere_ne_b (c : Char) (cs : List Char) (h : c ≠ 'b') :
    matchMarkerHere (c :: cs) = none := by
  unfold matchMarkerHere
  have : expectLit litBackup (c :: cs) = none := by
    simp [litBackup, expectLit, h]
  rw [this, Option.none_bind]

theorem matchMarkerHere_b (c : Char) (cs : List Char) (h : c ≠ 'a') :
    matchMarkerHere ('b' :: c :: cs) = none := by
  unfold matchMarkerHere
  have : expectLit litBackup ('b' :: c :: cs) = none := by
    simp [litBackup, expectLit, h]
  rw [this, Option.none_bind]

theorem searchFull_cons_none (c : Char) (cs : List Char)
    (h : matchFullHere (c :: cs) = none) : searchFull (c :: cs) = searchFull cs := by
  conv_lhs => rw [searchFull]
  rw [h]

theorem searchFull_cons_some (c : Char) (cs : List Char) (r : Nat × Nat × Nat × Nat × Nat × Nat)
    (h : matchFullHere (c :: cs) = some r) : searchFull (c :: cs) = some r := by
  unfold searchFull
  rw [h]

theorem searchMarker_cons_none (c : Char) (cs : List Char)
    (h : matchMarkerHere (c :: cs) = none) : searchMarker (c :: cs) = searchMarker cs := by
  conv_lhs => rw [searchMarker]
  rw [h]

theorem searchMarker_cons_some (c : Char) (cs : List Char) (r : Nat × Nat × Nat)
    (h : matchMarkerHere (c :: cs) = some r) : searchMarker (c :: cs) = some r := by
  unfold searchMarker
  rw [h]

theorem searchFull_all_ne : ∀ (l cs : List Char), (∀ c ∈ l, c ≠ 'b') →
    searchFull (l ++ cs) = searchFull cs
  | [], cs, _ => rfl
  | c :: l, cs, h => by
    rw [List.cons_append, searchFull_cons_none c _ (matchFullHere_ne_b c _ (h c (by simp)))]
    exact searchFull_all_ne l cs (fun x hx => h x (by simp [hx]))

theorem searchFull_none_of_ne (l : List Char) (h : ∀ c ∈ l, c ≠ 'b') :
    searchFull l = none := by
  have := searchFull_all_ne l [] h
  simpa using this

theorem pad2_ne_b (n : Nat) : ∀ c ∈ pad2 n, c ≠ 'b' := by
  intro c hc
  simp only [pad2, List.mem_cons, List.not_mem_nil, or_false] at hc
  rcases hc with hc | hc <;> subst hc <;>
    exact (digitChar_spec _ (Nat.mod_lt _ (by norm_num))).2.2.1

theorem pad4_ne_b (n : Nat) : ∀ c ∈ pad4 n, c ≠ 'b' := by
  intro c hc
  simp only [pad4, List.mem_cons, List.not_mem_nil, or_false] at hc
  rcases hc with hc | hc | hc | hc <;> subst hc <;>
    exact (digitChar_spec _ (Nat.mod_lt _ (by norm_num))).2.2.1

theorem searchMarker_all_ne : ∀ (l cs : List Char), (∀ c ∈ l, c ≠ 'b') →
    searchMarker (l ++ cs) = searchMarker cs
  | [], cs, _ => rfl
  | c :: l, cs, h => by
    rw [List.cons_append, searchMarker_cons_none c _ (matchMarkerHere_ne_b c _ (h c (by simp)))]
    exact searchMarker_all_ne l cs (fun x hx => h x (by simp [hx]))

theorem daysInMonth_le (y : Int) (m : Nat) : daysInMonth y m ≤ 31 := by
  unfold daysInMonth
  split
  · split <;> norm_num
  · split <;> norm_num

theorem valid_bounds (t : DT) (hv : t.Valid) :
    t.year.toNat < 10000 ∧ t.month < 100 ∧ t.day < 100 ∧ t.hour < 100 ∧ t.minute < 100 ∧
      t.second < 100 := by
  have hdm := daysInMonth_le t.year t.month
  unfold DT.Valid at hv
  omega

theorem generate_scheduled_eq (t : DT) :
    generate_backup_filename .scheduled t =
      'd' :: 'b' :: '/' :: (litBackup ++ (pad4 t.year.toNat ++ ('-' :: (pad2 t.month ++
        ('-' :: (pad2 t.day ++ ('-' :: (pad2 t.hour ++ ('-' :: (pad2 t.minute ++
        ('-' :: (pad2 t.second ++ litSqlGz)))))))))))) := by
  simp [generate_backup_filename, litDb, fullChars, dateChars, List.append_assoc]

theorem generate_manual_eq (t : DT) :
    generate_backup_filename .manual t = generate_backup_filename .scheduled t := rfl

theorem generate_startup_eq (t : DT) :
    generate_backup_filename .startup t =
      'd' :: 'b' :: '/' :: (litBackup ++ (pad4 t.year.toNat ++ ('-' :: (pad2 t.month ++
        ('-' :: (pad2 t.day ++ ('-' :: (litStartup ++ litSqlGz)))))))) := by
  simp [generate_backup_filename, litDb, dateChars, List.append_assoc]

theorem generate_shutdown_eq (t : DT) :
    generate_backup_filename .shutdown t =
      'd' :: 'b' :: '/' :: (litBackup ++ (pad4 t.year.toNat ++ ('-' :: (pad2 t.month ++
        ('-' :: (pad2 t.day ++ ('-' :: (litShutdown ++ litSqlGz)))))))) := by
  simp [generate_backup_filename, litDb, dateChars, List.append_assoc]

theorem searchFull_scheduled (t : DT) (hv : t.Valid) :
    searchFull (generate_backup_filename .scheduled t) =
      some (t.year.toNat, t.month, t.day, t.hour, t.minute, t.second) := by
  obtain ⟨b1, b2, b3, b4, b5, b6⟩ := valid_bounds t hv
  rw [generate_scheduled_eq]
  rw [searchFull_cons_none _ _ (matchFullHere_ne_b _ _ (by decide))]
  rw [searchFull_cons_none _ _ (matchFullHere_b _ _ (by decide))]
  rw [searchFull_cons_none _ _ (matchFullHere_ne_b _ _ (by decide))]
  exact searchFull_cons_some _ _ _ (matchFullHere_build _ _ _ _ _ _ b1 b2 b3 b4 b5 b6)

theorem searchFull_marker_none (y mo d : Nat) (hy : y < 10000) (hmo : mo < 100)
    (hd : d < 100) (w : List Char) (hw : w = litStartup ∨ w = litShutdown) :
    searchFull ('d' :: 'b' :: '/' :: (litBackup ++ (pad4 y ++ ('-' :: (pad2 mo ++
      ('-' :: (pad2 d ++ ('-' :: (w ++ litSqlGz))))))))) = none := by
  rw [searchFull_cons_none _ _ (matchFullHere_ne_b _ _ (by decide))]
  rw [searchFull_cons_none _ _ (matchFullHere_b _ _ (by decide))]
  rw [searchFull_cons_none _ _ (matchFullHere_ne_b _ _ (by decide))]
  have hshape : ∃ ws, w ++ litSqlGz = 's' :: ws := by
    rcases hw with hw | hw <;> subst hw
    · exact ⟨['t', 'a', 'r', 't', 'u', 'p'] ++ litSqlGz, rfl⟩
    · exact ⟨['h', 'u', 't', 'd', 'o', 'w', 'n'] ++ litSqlGz, rfl⟩
  obtain ⟨ws, hws⟩ := hshape
  rw [hws]
  rw [show (litBackup ++ (pad4 y ++ ('-' :: (pad2 mo ++ ('-' :: (pad2 d ++
      ('-' :: ('s' :: ws)))))))) =
    'b' :: ('a' :: 'c' :: 'k' :: 'u' :: 'p' :: '-' :: (pad4 y ++ ('-' :: (pad2 mo ++
      ('-' :: (pad2 d ++ ('-' :: ('s' :: ws)))))))) from rfl]
  rw [searchFull_cons_none 'b'
    ('a' :: 'c' :: 'k' :: 'u' :: 'p' :: '-' :: (pad4 y ++ ('-' :: (pad2 mo ++
      ('-' :: (pad2 d ++ ('-' :: ('s' :: ws))))))))
    (matchFullHere_at_marker y mo d hy hmo hd ws)]
  rw [show ('a' :: 'c' :: 'k' :: 'u' :: 'p' :: '-' :: (pad4 y ++ ('-' :: (pad2 mo ++
      ('-' :: (pad2 d ++ ('-' :: ('s' :: ws)))))))) =
    (['a', 'c', 'k', 'u', 'p', '-'] ++ (pad4 y ++ ('-' :: (pad2 mo ++
      ('-' :: (pad2 d ++ ('-' :: ('s' :: ws)))))))) from rfl]
  rw [searchFull_all_ne _ _ (by decide)]
  rw [searchFull_all_ne _ _ (pad4_ne_b y)]
  rw [searchFull_cons_none _ _ (matchFullHere_ne_b _ _ (by decide))]
  rw [searchFull_all_ne _ _ (pad2_ne_b mo)]
  rw [searchFull_cons_none _ _ (matchFullHere_ne_b _ _ (by decide))]
  rw [searchFull_all_ne _ _ (pad2_ne_b d)]
  rw [searchFull_cons_none _ _ (matchFullHere_ne_b _ _ (by decide))]
  rcases hw with hw | hw <;> subst hw
  · have : ('s' :: ws) = litStartup ++ litSqlGz := hws.symm
    rw [this, searchFull_all_ne _ _ (by decide),
      show litSqlGz = litSqlGz ++ [] by simp,
      searchFull_all_ne _ _ (by decide)]
    rfl
  · have : ('s' :: ws) = litShutdown ++ litSqlGz := hws.symm
    rw [this, searchFull_all_ne _ _ (by decide),
      show litSqlGz = litSqlGz ++ [] by simp,
      searchFull_all_ne _ _ (by decide)]
    rfl

theorem searchMarker_marker (y mo d : Nat) (hy : y < 10000) (hmo : mo < 100)
    (hd : d < 100) (w : List Char) (hw : w = litStartup ∨ w = litShutdown) :
    searchMarker ('d' :: 'b' :: '/' :: (litBackup ++ (pad4 y ++ ('-' :: (pad2 mo ++
      ('-' :: (pad2 d ++ ('-' :: (w ++ litSqlGz))))))))) = some (y, mo, d) := by
  rw [searchMarker_cons_none _ _ (matchMarkerHere_ne_b _ _ (by decide))]
  rw [searchMarker_cons_none _ _ (matchMarkerHere_b _ _ (by decide))]
  rw [searchMarker_cons_none _ _ (matchMarkerHere_ne_b _ _ (by decide))]
  exact searchMarker_cons_some _ _ _ (matchMarkerHere_build y mo d hy hmo hd w hw)

/-! ## Claim theorems: the timestamp codec -/

/-- C6: decoding the key generated for an exact-kind backup (scheduled or
manual) at time `t` returns exactly `t`; decoding the key generated for a
marker-kind (startup/shutdown) backup at `t` returns `t`'s calendar date
with the time-of-day fixed to 12:00:00 (stated for valid timestamps with
four-digit years, the domain on which `strftime('%Y')` zero-pads to four
digits). -/
theorem claim_c6_roundtrip (t : DT) (hv : t.Valid) (hy : 1000 ≤ t.year) :
    parse_backup_timestamp (generate_backup_filename .scheduled t) = .ok t ∧
    parse_backup_timestamp (generate_backup_filename .manual t) = .ok t ∧
    parse_backup_timestamp (generate_backup_filename .startup t) =
      .ok ⟨t.year, t.month, t.day, 12, 0, 0⟩ ∧
    parse_backup_timestamp (generate_backup_filename .shutdown t) =
      .ok ⟨t.year, t.month, t.day, 12, 0, 0⟩ := by
  obtain ⟨b1, b2, b3, b4, b5, b6⟩ := valid_bounds t hv
  have hnn : (0 : Int) ≤ t.year := by
    unfold DT.Valid at hv
    omega
  have hcast : ((t.year.toNat : Int)) = t.year := Int.toNat_of_nonneg hnn
  have hsched : parse_backup_timestamp (generate_backup_filename .scheduled t) = .ok t := by
    unfold parse_backup_timestamp
    rw [searchFull_scheduled t hv]
    show mkDatetime t.year.toNat t.month t.day t.hour t.minute t.second = .ok t
    unfold mkDatetime
    simp only [hcast]
    rw [if_pos hv]
  have hv12 : DT.Valid ⟨t.year, t.month, t.day, 12, 0, 0⟩ := by
    unfold DT.Valid at hv ⊢
    simp only at hv ⊢
    omega
  have hmark : ∀ w, w = litStartup ∨ w = litShutdown →
      parse_backup_timestamp ('d' :: 'b' :: '/' :: (litBackup ++ (pad4 t.year.toNat ++
        ('-' :: (pad2 t.month ++ ('-' :: (pad2 t.day ++ ('-' :: (w ++ litSqlGz))))))))) =
        .ok ⟨t.year, t.month, t.day, 12, 0, 0⟩ := by
    intro w hw
    unfold parse_backup_timestamp
    rw [searchFull_marker_none t.year.toNat t.month t.day b1 b2 b3 w hw]
    rw [searchMarker_marker t.year.toNat t.month t.day b1 b2 b3 w hw]
    show mkDatetime t.year.toNat t.month t.day 12 0 0 = .ok ⟨t.year, t.month, t.day, 12, 0, 0⟩
    unfold mkDatetime
    simp only [hcast]
    rw [if_pos hv12]
  refine ⟨hsched, ?_, ?_, ?_⟩
  · rw [generate_manual_eq]
    exact hsched
  · rw [generate_startup_eq]
    exact hmark litStartup (.inl rfl)
  · rw [generate_shutdown_eq]
    exact hmark litShutdown (.inr rfl)

/-- C6 witness: the round trip at the concrete time 2024-01-15 02:00:00. -/
theorem claim_c6_witness :
    (⟨2024, 1, 15, 2, 0, 0⟩ : DT).Valid ∧ (1000 : Int) ≤ (⟨2024, 1, 15, 2, 0, 0⟩ : DT).year ∧
    (parse_backup_timestamp (generate_backup_filename .scheduled ⟨2024, 1, 15, 2, 0, 0⟩) =
        .ok ⟨2024, 1, 15, 2, 0, 0⟩ ∧
      parse_backup_timestamp (generate_backup_filename .manual ⟨2024, 1, 15, 2, 0, 0⟩) =
        .ok ⟨2024, 1, 15, 2, 0, 0⟩ ∧
      parse_backup_timestamp (generate_backup_filename .startup ⟨2024, 1, 15, 2, 0, 0⟩) =
        .ok ⟨2024, 1, 15, 12, 0, 0⟩ ∧
      parse_backup_timestamp (generate_backup_filename .shutdown ⟨2024, 1, 15, 2, 0, 0⟩) =
        .ok ⟨2024, 1, 15, 12, 0, 0⟩) :=
  ⟨by decide, by decide, claim_c6_roundtrip ⟨2024, 1, 15, 2, 0, 0⟩ (by decide) (by decide)⟩

theorem takeDigits_digits (ds : List Char) (n : Nat) (cs : List Char) (h : DigitStr ds n) :
    ∃ v, takeDigits n (ds ++ cs) = some (v, cs) := by
  obtain ⟨v, hv⟩ := readDigits_of_digits ds 0 cs h.2
  rw [← h.1]
  exact ⟨v, hv⟩

theorem matchFullHere_sound (cs : List Char) (r : Nat × Nat × Nat × Nat × Nat × Nat)
    (hm : matchFullHere cs = some r) :
    ∃ ys mos dss hhs mis sss rest, DigitStr ys 4 ∧ DigitStr mos 2 ∧ DigitStr dss 2 ∧
      DigitStr hhs 2 ∧ DigitStr mis 2 ∧ DigitStr sss 2 ∧
      cs = litBackup ++ ys ++ ['-'] ++ mos ++ ['-'] ++ dss ++ ['-'] ++ hhs ++ ['-'] ++
        mis ++ ['-'] ++ sss ++ litSqlGz ++ rest := by
  unfold matchFullHere at hm
  simp only [Option.bind_eq_some, Option.map_eq_some'] at hm
  obtain ⟨cs1, he1, ⟨y, cs2⟩, ht1, cs3, he2, ⟨mo, cs4⟩, ht2, cs5, he3, ⟨d, cs6⟩, ht3,
    cs7, he4, ⟨h, cs8⟩, ht4, cs9, he5, ⟨mi, cs10⟩, ht5, cs11, he6, ⟨s, cs12⟩, ht6,
    rest, he7, hr⟩ := hm
  dsimp only at he2 he3 he4 he5 he6 he7 hr ht2 ht3 ht4 ht5 ht6
  obtain ⟨ys, hys, hysl, hysd⟩ := takeDigits_sound 4 cs1 y cs2 ht1
  obtain ⟨mos, hmos, hmosl, hmosd⟩ := takeDigits_sound 2 cs3 mo cs4 ht2
  obtain ⟨dss, hdss, hdssl, hdssd⟩ := takeDigits_sound 2 cs5 d cs6 ht3
  obtain ⟨hhs, hhhs, hhhsl, hhhsd⟩ := takeDigits_sound 2 cs7 h cs8 ht4
  obtain ⟨mis, hmis, hmisl, hmisd⟩ := takeDigits_sound 2 cs9 mi cs10 ht5
  obtain ⟨sss, hsss, hsssl, hsssd⟩ := takeDigits_sound 2 cs11 s cs12 ht6
  refine ⟨ys, mos, dss, hhs, mis, sss, rest, ⟨hysl, hysd⟩, ⟨hmosl, hmosd⟩, ⟨hdssl, hdssd⟩,
    ⟨hhhsl, hhhsd⟩, ⟨hmisl, hmisd⟩, ⟨hsssl, hsssd⟩, ?_⟩
  rw [expectLit_sound _ _ _ he1, hys, expectLit_sound _ _ _ he2, hmos,
    expectLit_sound _ _ _ he3, hdss, expectLit_sound _ _ _ he4, hhhs,
    expectLit_sound _ _ _ he5, hmis, expectLit_sound _ _ _ he6, hsss,
    expectLit_sound _ _ _ he7]
  simp [List.append_assoc]

theorem matchMarkerHere_sound (cs : List Char) (r : Nat × Nat × Nat)
    (hm : matchMarkerHere cs = some r) :
    ∃ ys mos dss w rest, DigitStr ys 4 ∧ DigitStr mos 2 ∧ DigitStr dss 2 ∧
      (w = litStartup ∨ w = litShutdown) ∧
      cs = litBackup ++ ys ++ ['-'] ++ mos ++ ['-'] ++ dss ++ ['-'] ++ w ++ litSqlGz ++ rest := by
  unfold matchMarkerHere at hm
  simp only [Option.bind_eq_some, Option.map_eq_some'] at hm
  obtain ⟨cs1, he1, ⟨y, cs2⟩, ht1, cs3, he2, ⟨mo, cs4⟩, ht2, cs5, he3, ⟨d, cs6⟩, ht3,
    cs7, he4, cs8, halt, rest, he5, hr⟩ := hm
  dsimp only at he2 he3 he4 he5 hr ht2 ht3 halt
  obtain ⟨ys, hys, hysl, hysd⟩ := takeDigits_sound 4 cs1 y cs2 ht1
  obtain ⟨mos, hmos, hmosl, hmosd⟩ := takeDigits_sound 2 cs3 mo cs4 ht2
  obtain ⟨dss, hdss, hdssl, hdssd⟩ := takeDigits_sound 2 cs5 d cs6 ht3
  have hcase : (cs7 = litStartup ++ cs8) ∨ (cs7 = litShutdown ++ cs8) := by
    rcases hst : expectLit litStartup cs7 with _ | cs8'
    · rw [hst] at halt
      exact .inr (expectLit_sound _ _ _ halt)
    · rw [hst] at halt
      cases halt
      exact .inl (expectLit_sound _ _ _ hst)
  rcases hcase with hc | hc
  · refine ⟨ys, mos, dss, litStartup, rest, ⟨hysl, hysd⟩, ⟨hmosl, hmosd⟩, ⟨hdssl, hdssd⟩,
      .inl rfl, ?_⟩
    rw [expectLit_sound _ _ _ he1, hys, expectLit_sound _ _ _ he2, hmos,
      expectLit_sound _ _ _ he3, hdss, expectLit_sound _ _ _ he4, hc,
      expectLit_sound _ _ _ he5]
    simp [List.append_assoc]
  · refine ⟨ys, mos, dss, litShutdown, rest, ⟨hysl, hysd⟩, ⟨hmosl, hmosd⟩, ⟨hdssl, hdssd⟩,
      .inr rfl, ?_⟩
    rw [expectLit_sound _ _ _ he1, hys, expectLit_sound _ _ _ he2, hmos,
      expectLit_sound _ _ _ he3, hdss, expectLit_sound _ _ _ he4, hc,
      expectLit_sound _ _ _ he5]
    simp [List.append_assoc]

theorem matchFullHere_nil : matchFullHere [] = none := rfl

theorem matchMarkerHere_nil : matchMarkerHere [] = none := rfl

theorem searchFull_some_decomp : ∀ (cs : List Char) (r : Nat × Nat × Nat × Nat × Nat × Nat),
    searchFull cs = some r → ∃ p suffix, cs = p ++ suffix ∧ matchFullHere suffix = some r
  | [], r, h => by cases h
  | c :: cs, r, h => by
    rcases hm : matchFullHere (c :: cs) with _ | r'
    · rw [searchFull_cons_none c cs hm] at h
      obtain ⟨p, suffix, heq, hmat⟩ := searchFull_some_decomp cs r h
      exact ⟨c :: p, suffix, by simp [heq], hmat⟩
    · rw [searchFull_cons_some c cs r' hm] at h
      cases h
      exact ⟨[], c :: cs, rfl, hm⟩

theorem searchMarker_some_decomp : ∀ (cs : List Char) (r : Nat × Nat × Nat),
    searchMarker cs = some r → ∃ p suffix, cs = p ++ suffix ∧ matchMarkerHere suffix = some r
  | [], r, h => by cases h
  | c :: cs, r, h => by
    rcases hm : matchMarkerHere (c :: cs) with _ | r'
    · rw [searchMarker_cons_none c cs hm] at h
      obtain ⟨p, suffix, heq, hmat⟩ := searchMarker_some_decomp cs r h
      exact ⟨c :: p, suffix, by simp [heq], hmat⟩
    · rw [searchMarker_cons_some c cs r' hm] at h
      cases h
      exact ⟨[], c :: cs, rfl, hm⟩

theorem searchFull_of_suffix : ∀ (p suffix : List Char) (r : Nat × Nat × Nat × Nat × Nat × Nat),
    matchFullHere suffix = some r → ∃ r', searchFull (p ++ suffix) = some r'
  | [], suffix, r, h => by
    cases suffix with
    | nil => rw [matchFullHere_nil] at h; cases h
    | cons c cs => exact ⟨r, searchFull_cons_some c cs r h⟩
  | c :: p, suffix, r, h => by
    rw [List.cons_append]
    rcases hm : matchFullHere (c :: (p ++ suffix)) with _ | r''
    · rw [searchFull_cons_none _ _ hm]
      exact searchFull_of_suffix p suffix r h
    · exact ⟨r'', searchFull_cons_some _ _ _ hm⟩

theorem searchMarker_of_suffix : ∀ (p suffix : List Char) (r : Nat × Nat × Nat),
    matchMarkerHere suffix = some r → ∃ r', searchMarker (p ++ suffix) = some r'
  | [], suffix, r, h => by
    cases suffix with
    | nil => rw [matchMarkerHere_nil] at h; cases h
    | cons c cs => exact ⟨r, searchMarker_cons_some c cs r h⟩
  | c :: p, suffix, r, h => by
    rw [List.cons_append]
    rcases hm : matchMarkerHere (c :: (p ++ suffix)) with _ | r''
    · rw [searchMarker_cons_none _ _ hm]
      exact searchMarker_of_suffix p suffix r h
    · exact ⟨r'', searchMarker_cons_some _ _ _ hm⟩

theorem matchFullHere_digits (ys mos dss hhs mis sss rest : List Char)
    (h1 : DigitStr ys 4) (h2 : DigitStr mos 2) (h3 : DigitStr dss 2) (h4 : DigitStr hhs 2)
    (h5 : DigitStr mis 2) (h6 : DigitStr sss 2) :
    ∃ r, matchFullHere (litBackup ++ (ys ++ ('-' :: (mos ++ ('-' :: (dss ++ ('-' ::
      (hhs ++ ('-' :: (mis ++ ('-' :: (sss ++ (litSqlGz ++ rest))))))))))))) = some r := by
  obtain ⟨v1, hv1⟩ := takeDigits_digits ys 4
    ('-' :: (mos ++ ('-' :: (dss ++ ('-' :: (hhs ++ ('-' :: (mis ++ ('-' ::
      (sss ++ (litSqlGz ++ rest))))))))))) h1
  obtain ⟨v2, hv2⟩ := takeDigits_digits mos 2
    ('-' :: (dss ++ ('-' :: (hhs ++ ('-' :: (mis ++ ('-' :: (sss ++ (litSqlGz ++ rest))))))))) h2
  obtain ⟨v3, hv3⟩ := takeDigits_digits dss 2
    ('-' :: (hhs ++ ('-' :: (mis ++ ('-' :: (sss ++ (litSqlGz ++ rest))))))) h3
  obtain ⟨v4, hv4⟩ := takeDigits_digits hhs 2
    ('-' :: (mis ++ ('-' :: (sss ++ (litSqlGz ++ rest))))) h4
  obtain ⟨v5, hv5⟩ := takeDigits_digits mis 2 ('-' :: (sss ++ (litSqlGz ++ rest))) h5
  obtain ⟨v6, hv6⟩ := takeDigits_digits sss 2 (litSqlGz ++ rest) h6
  refine ⟨(v1, v2, v3, v4, v5, v6), ?_⟩
  unfold matchFullHere
  simp only [expectLit_append, Option.some_bind, hv1, hv2, hv3, hv4, hv5, hv6,
    expectLit_single, Option.map_some']

theorem matchMarkerHere_digits (ys mos dss w rest : List Char)
    (h1 : DigitStr ys 4) (h2 : DigitStr mos 2) (h3 : DigitStr dss 2)
    (hw : w = litStartup ∨ w = litShutdown) :
    ∃ r, matchMarkerHere (litBackup ++ (ys ++ ('-' :: (mos ++ ('-' :: (dss ++ ('-' ::
      (w ++ (litSqlGz ++ rest))))))))) = some r := by
  obtain ⟨v1, hv1⟩ := takeDigits_digits ys 4
    ('-' :: (mos ++ ('-' :: (dss ++ ('-' :: (w ++ (litSqlGz ++ rest))))))) h1
  obtain ⟨v2, hv2⟩ := takeDigits_digits mos 2
    ('-' :: (dss ++ ('-' :: (w ++ (litSqlGz ++ rest))))) h2
  obtain ⟨v3, hv3⟩ := takeDigits_digits dss 2 ('-' :: (w ++ (litSqlGz ++ rest))) h3
  refine ⟨(v1, v2, v3), ?_⟩
  unfold matchMarkerHere
  rcases hw with hw | hw <;> subst hw
  · simp only [expectLit_append, Option.some_bind, hv1, hv2, hv3, expectLit_single,
      Option.map_some']
  · have hfail : expectLit litStartup (litShutdown ++ (litSqlGz ++ rest)) = none := by
      simp [litStartup, litShutdown, expectLit]
    simp only [expectLit_append, Option.some_bind, hv1, hv2, hv3, expectLit_single, hfail,
      Option.map_some']

theorem searchFull_contains (k : List Char) :
    (∃ r, searchFull k = some r) ↔ ContainsFullPattern k := by
  constructor
  · rintro ⟨r, hr⟩
    obtain ⟨p, suffix, heq, hmat⟩ := searchFull_some_decomp k r hr
    obtain ⟨ys, mos, dss, hhs, mis, sss, rest, d1, d2, d3, d4, d5, d6, hsfx⟩ :=
      matchFullHere_sound suffix r hmat
    exact ⟨p, ys, mos, dss, hhs, mis, sss, rest, d1, d2, d3, d4, d5, d6,
      by rw [heq, hsfx]; simp [List.append_assoc]⟩
  · rintro ⟨p, ys, mos, dss, hhs, mis, sss, rest, d1, d2, d3, d4, d5, d6, hk⟩
    obtain ⟨r, hr⟩ := matchFullHere_digits ys mos dss hhs mis sss rest d1 d2 d3 d4 d5 d6
    have hk' : k = p ++ (litBackup ++ (ys ++ ('-' :: (mos ++ ('-' :: (dss ++ ('-' ::
        (hhs ++ ('-' :: (mis ++ ('-' :: (sss ++ (litSqlGz ++ rest))))))))))))) := by
      rw [hk]
      simp [List.append_assoc]
    rw [hk']
    exact searchFull_of_suffix p _ r hr

theorem searchMarker_contains (k : List Char) :
    (∃ r, searchMarker k = some r) ↔ ContainsMarkerPattern k := by
  constructor
  · rintro ⟨r, hr⟩
    obtain ⟨p, suffix, heq, hmat⟩ := searchMarker_some_decomp k r hr
    obtain ⟨ys, mos, dss, w, rest, d1, d2, d3, hw, hsfx⟩ := matchMarkerHere_sound suffix r hmat
    exact ⟨p, ys, mos, dss, w, rest, d1, d2, d3, hw,
      by rw [heq, hsfx]; simp [List.append_assoc]⟩
  · rintro ⟨p, ys, mos, dss, w, rest, d1, d2, d3, hw, hk⟩
    obtain ⟨r, hr⟩ := matchMarkerHere_digits ys mos dss w rest d1 d2 d3 hw
    have hk' : k = p ++ (litBackup ++ (ys ++ ('-' :: (mos ++ ('-' :: (dss ++ ('-' ::
        (w ++ (litSqlGz ++ rest))))))))) := by
      rw [hk]
      simp [List.append_assoc]
    rw [hk']
    exact searchMarker_of_suffix p _ r hr

theorem mkDatetime_ne_invalidFormat (y mo d h mi s : Nat) :
    mkDatetime y mo d h mi s ≠ .error .invalidFormat := by
  unfold mkDatetime
  dsimp only
  split <;> simp

/-- C7: decode raises the invalid-key-format error exactly when the key
contains neither the exact pattern nor the marker pattern as a substring
(matching is a pattern search tolerating arbitrary surrounding text; a key
that matches a pattern but carries out-of-range field values fails with
the datetime constructor's error instead); and the three concrete
scenario-E cases. -/
theorem claim_c7_decode_errors :
    (∀ k, parse_backup_timestamp k = .error .invalidFormat ↔
        ¬ ContainsFullPattern k ∧ ¬ ContainsMarkerPattern k) ∧
    parse_backup_timestamp "db/backup-2024-01-15-02-00-00.sql.gz".toList =
      .ok ⟨2024, 1, 15, 2, 0, 0⟩ ∧
    parse_backup_timestamp "db/backup-2024-01-15-startup.sql.gz".toList =
      .ok ⟨2024, 1, 15, 12, 0, 0⟩ ∧
    parse_backup_timestamp "db/notabackup.txt".toList = .error .invalidFormat := by
  refine ⟨?_, by decide, by decide, by decide⟩
  intro k
  constructor
  · intro h
    unfold parse_backup_timestamp at h
    rcases hf : searchFull k with _ | ⟨y, mo, d, hh, mi, s⟩
    · rw [hf] at h
      rcases hmk : searchMarker k with _ | ⟨y, mo, d⟩
      · refine ⟨fun hc => ?_, fun hc => ?_⟩
        · obtain ⟨r, hr⟩ := (searchFull_contains k).mpr hc
          rw [hf] at hr
          cases hr
        · obtain ⟨r, hr⟩ := (searchMarker_contains k).mpr hc
          rw [hmk] at hr
          cases hr
      · rw [hmk] at h
        exact absurd h (mkDatetime_ne_invalidFormat y mo d 12 0 0)
    · rw [hf] at h
      exact absurd h (mkDatetime_ne_invalidFormat y mo d hh mi s)
  · rintro ⟨h1, h2⟩
    have hf : searchFull k = none := by
      rcases hs : searchFull k with _ | r
      · rfl
      · exact absurd ((searchFull_contains k).mp ⟨r, hs⟩) h1
    have hmk : searchMarker k = none := by
      rcases hs : searchMarker k with _ | r
      · rfl
      · exact absurd ((searchMarker_contains k).mp ⟨r, hs⟩) h2
    unfold parse_backup_timestamp
    rw [hf, hmk]

end Relic
